import Mathlib

/-!
Verification of core numeric and algorithmic components of a Rust
path tracer (`rust-path-tracer`): the f32 utility functions, the
low-discrepancy RNG, the light-pick table builder, the per-pixel
tracing loop of `main_material`, and the BVH builder / traversal.

Numbers: finite f32 values are idealised as exact rationals (f32
rounding of `+ - * /` is not modelled), but the IEEE special values
NaN, `+inf` and `-inf` ARE modelled, because the code's behaviour on
0/0, division by zero, and infinite AABB bounds is load-bearing.
The one place where f32 rounding itself is load-bearing — the
`u32 as f32` conversion in the RNG — is modelled bit-exactly
(`u32ToF32Int`).
-/

set_option maxHeartbeats 1000000

namespace RPT

/-!
Kernel-computable rational arithmetic.  The standard `ℚ` operations of
Mathlib are irreducible for `decide`, so we define equivalent operations
through `mkRat` (which does reduce) and prove them equal to the standard
ones; evaluation of concrete runs uses these, algebraic theorems rewrite
through the `q*_eq` bridge lemmas below.
-/

/-- `a + b` on `ℚ`, computable by the kernel. -/
def qadd (a b : ℚ) : ℚ := mkRat (a.num * b.den + b.num * a.den) (a.den * b.den)

/-- `-a` on `ℚ`, computable by the kernel. -/
def qneg (a : ℚ) : ℚ := mkRat (-a.num) a.den

/-- `a - b` on `ℚ`, computable by the kernel. -/
def qsub (a b : ℚ) : ℚ := qadd a (qneg b)

/-- `a * b` on `ℚ`, computable by the kernel. -/
def qmul (a b : ℚ) : ℚ := mkRat (a.num * b.num) (a.den * b.den)

/-- `a⁻¹` on `ℚ`, computable by the kernel. -/
def qinv (a : ℚ) : ℚ :=
  if a.num < 0 then mkRat (-(a.den : ℤ)) a.num.natAbs else mkRat a.den a.num.natAbs

/-- `a / b` on `ℚ`, computable by the kernel. -/
def qdiv (a b : ℚ) : ℚ := qmul a (qinv b)

/-- `|a|` on `ℚ`, computable by the kernel. -/
def qabs (a : ℚ) : ℚ := if a.num < 0 then qneg a else a

/-- `decide (a < b)` on `ℚ`, computable by the kernel. -/
def qlt (a b : ℚ) : Bool := decide (a.num * (b.den : ℤ) < b.num * (a.den : ℤ))

/-- `decide (a ≤ b)` on `ℚ`, computable by the kernel. -/
def qle (a b : ℚ) : Bool := decide (a.num * (b.den : ℤ) ≤ b.num * (a.den : ℤ))

/-- Rust `as usize` on a finite nonnegative rational: truncation toward
zero, negative values clamp to 0 (saturation at `usize::MAX` is not
modelled; all values cast in this development are small). -/
def qtoUsize (q : ℚ) : ℕ := if q.num ≤ 0 then 0 else q.num.toNat / q.den

/-- Idealised IEEE-754 f32: exact rational finite values plus NaN and the
two infinities.  Negative zero is not distinguished from zero. -/
inductive F where
  | fin (q : ℚ)
  | nan
  | inf
  | ninf
deriving DecidableEq, Repr, Inhabited

namespace F

/-- f32 addition on the idealised values (exact on finite values). -/
def add : F → F → F
  | nan, _ => nan
  | _, nan => nan
  | inf, ninf => nan
  | ninf, inf => nan
  | inf, _ => inf
  | _, inf => inf
  | ninf, _ => ninf
  | _, ninf => ninf
  | fin a, fin b => fin (qadd a b)

/-- f32 negation. -/
def neg : F → F
  | nan => nan
  | inf => ninf
  | ninf => inf
  | fin a => fin (qneg a)

/-- f32 subtraction, `a - b = a + (-b)`. -/
def sub (a b : F) : F := a.add b.neg

/-- f32 multiplication: `0 * inf = NaN`, signs of infinities respected. -/
def mul : F → F → F
  | nan, _ => nan
  | _, nan => nan
  | inf, inf => inf
  | inf, ninf => ninf
  | ninf, inf => ninf
  | ninf, ninf => inf
  | inf, fin b => if b = 0 then nan else if qlt 0 b then inf else ninf
  | fin a, inf => if a = 0 then nan else if qlt 0 a then inf else ninf
  | ninf, fin b => if b = 0 then nan else if qlt 0 b then ninf else inf
  | fin a, ninf => if a = 0 then nan else if qlt 0 a then ninf else inf
  | fin a, fin b => fin (qmul a b)

/-- f32 division: `x/0` is `NaN` for `x = 0` and a signed infinity
otherwise; `finite / inf = 0`; `inf / inf = NaN`. -/
def div : F → F → F
  | nan, _ => nan
  | _, nan => nan
  | inf, inf => nan
  | inf, ninf => nan
  | ninf, inf => nan
  | ninf, ninf => nan
  | inf, fin b => if qle 0 b then inf else ninf
  | ninf, fin b => if qle 0 b then ninf else inf
  | fin _, inf => fin 0
  | fin _, ninf => fin 0
  | fin a, fin b =>
      if b = 0 then (if a = 0 then nan else if qlt 0 a then inf else ninf)
      else fin (qdiv a b)

/-- f32 strict order; any comparison with NaN is false. -/
def lt : F → F → Bool
  | nan, _ => false
  | _, nan => false
  | ninf, ninf => false
  | ninf, _ => true
  | _, ninf => false
  | inf, _ => false
  | fin _, inf => true
  | fin a, fin b => qlt a b

/-- f32 `<=`; any comparison with NaN is false. -/
def le : F → F → Bool
  | nan, _ => false
  | _, nan => false
  | ninf, _ => true
  | _, ninf => false
  | _, inf => true
  | inf, fin _ => false
  | fin a, fin b => qle a b

/-- IEEE equality test (`==` in Rust): NaN compares unequal to everything. -/
def feq : F → F → Bool
  | fin a, fin b => decide (a = b)
  | inf, inf => true
  | ninf, ninf => true
  | _, _ => false

/-- Rust `f32::min`: if one argument is NaN the other is returned. -/
def rmin (a b : F) : F :=
  if a = nan then b else if b = nan then a else if a.lt b then a else b

/-- Rust `f32::max`: if one argument is NaN the other is returned. -/
def rmax (a b : F) : F :=
  if a = nan then b else if b = nan then a else if a.lt b then b else a

/-- `f32::abs`. -/
def abs : F → F
  | nan => nan
  | inf => inf
  | ninf => inf
  | fin a => fin (qabs a)

/-- `f32::is_finite`. -/
def isFinite : F → Bool
  | fin _ => true
  | _ => false

/-- `f32::is_infinite`. -/
def isInfinite : F → Bool
  | inf => true
  | ninf => true
  | _ => false

/-- `num_traits::Signed::is_negative` on f32 (true on negative finite
values and `-inf`; negative zero is not modelled). -/
def isNeg : F → Bool
  | fin a => qlt a 0
  | ninf => true
  | _ => false

end F

/-- A `glam::Vec3` of idealised f32 values. -/
structure V3F where
  x : F
  y : F
  z : F
deriving DecidableEq, Repr, Inhabited

namespace V3F

def zero : V3F := ⟨F.fin 0, F.fin 0, F.fin 0⟩

def one : V3F := ⟨F.fin 1, F.fin 1, F.fin 1⟩

/-- Componentwise addition (`glam` `Vec3 + Vec3`). -/
def add (a b : V3F) : V3F := ⟨a.x.add b.x, a.y.add b.y, a.z.add b.z⟩

/-- Componentwise multiplication (`glam` `Vec3 * Vec3`). -/
def mul (a b : V3F) : V3F := ⟨a.x.mul b.x, a.y.mul b.y, a.z.mul b.z⟩

/-- `Vec3 / f32` (componentwise division by a scalar). -/
def divScalar (a : V3F) (s : F) : V3F := ⟨a.x.div s, a.y.div s, a.z.div s⟩

/-- `Vec3 * f32`. -/
def mulScalar (a : V3F) (s : F) : V3F := ⟨a.x.mul s, a.y.mul s, a.z.mul s⟩

/-- `glam` `Vec3::is_finite`: true iff all components are finite. -/
def isFinite (v : V3F) : Bool := v.x.isFinite && v.y.isFinite && v.z.isFinite

/-- `glam` `Vec3 == Vec3` (IEEE componentwise equality). -/
def feq (a b : V3F) : Bool := a.x.feq b.x && a.y.feq b.y && a.z.feq b.z

/-- `glam` `Vec3::max_element` = `x.max(y).max(z)` with Rust `f32::max`. -/
def maxElement (v : V3F) : F := (v.x.rmax v.y).rmax v.z

end V3F

/-! ### `kernels/src/util.rs` -/

/-- `util::power_heuristic`:
`let p1_2 = p1 * p1; p1_2 / (p1_2 + p2 * p2)` — no guard for a zero
denominator. -/
def power_heuristic (p1 p2 : F) : F :=
  let p1_2 := p1.mul p1
  p1_2.div (p1_2.add (p2.mul p2))

/-- `util::mask_nan`: `if v.is_finite() { v } else { Vec3::ZERO }` —
note the test is on the WHOLE vector. -/
def mask_nan (v : V3F) : V3F :=
  if v.isFinite then v else V3F.zero

/-! ### `kernels/src/rng.rs` -/

/-- `LDS_PRIMES`: the 32 hashed square-roots-of-primes constants. -/
def LDS_PRIMES : List ℕ :=
  [0x6a09e667, 0xbb67ae84, 0x3c6ef372, 0xa54ff539, 0x510e527f, 0x9b05688a, 0x1f83d9ab, 0x5be0cd18,
   0xcbbb9d5c, 0x629a2929, 0x91590159, 0x452fecd8, 0x67332667, 0x8eb44a86, 0xdb0c2e0b, 0x47b5481d,
   0xae5f9155, 0xcf6c85d1, 0x2f73477d, 0x6d1826ca, 0x8b43d455, 0xe360b595, 0x1c456002, 0x6f196330,
   0xd94ebeaf, 0x9cc4a611, 0x261dc1f2, 0x5815a7bd, 0x70b7ed67, 0xa1513c68, 0x44f93634, 0x720dcdfc]

def LDS_MAX_DIMENSIONS : ℕ := 32

/-- Number of low bits dropped when rounding `u < 2^32` to a 24-bit
significand. -/
def f32Shift (u : ℕ) : ℕ :=
  if u < 2 ^ 24 then 0
  else if u < 2 ^ 25 then 1
  else if u < 2 ^ 26 then 2
  else if u < 2 ^ 27 then 3
  else if u < 2 ^ 28 then 4
  else if u < 2 ^ 29 then 5
  else if u < 2 ^ 30 then 6
  else if u < 2 ^ 31 then 7
  else 8

/-- Bit-exact model of Rust's `u32 as f32` for `u < 2^32`: round the
integer to 24 significant bits, ties to even.  The result is returned as
the exact integer value of the resulting f32. -/
def u32ToF32Int (u : ℕ) : ℕ :=
  let sh := f32Shift u
  if sh = 0 then u
  else
    let q := u / 2 ^ sh
    let r := u % 2 ^ sh
    let half := 2 ^ (sh - 1)
    let q' := if r > half ∨ (r = half ∧ q % 2 = 1) then q + 1 else q
    q' * 2 ^ sh

/-- `rng::lds`: `(LDS_PRIMES[dimension].wrapping_mul(n.wrapping_add(offset)))
as f32 * (1.0 / 4294967296.0)`.  The final multiplication by `2^-32` is an
exact power-of-two scaling, so only the `as f32` conversion rounds.
Returns `none` when `dimension` is out of bounds of `LDS_PRIMES`
(an index panic in Rust). -/
def lds (n : ℕ) (dimension : ℕ) (offset : ℕ) : Option ℚ :=
  if dimension < LDS_MAX_DIMENSIONS then
    some (mkRat (u32ToF32Int ((LDS_PRIMES.getD dimension 0 * ((n + offset) % 2 ^ 32)) % 2 ^ 32)) (2 ^ 32))
  else
    none

/-- `rng::RngState`: `state : UVec2` plus the dimension counter. -/
structure RngState where
  x : ℕ
  y : ℕ
  dimension : ℕ
deriving DecidableEq, Repr, Inhabited

namespace RngState

/-- `gen_r1`: `self.dimension += 1; lds(self.state.x, self.dimension,
self.state.y)`.  `none` models the `LDS_PRIMES` index panic. -/
def gen_r1 (s : RngState) : Option (ℚ × RngState) :=
  let s' : RngState := { s with dimension := s.dimension + 1 }
  match lds s'.x s'.dimension s'.y with
  | some q => some (q, s')
  | none => none

/-- `gen_r2` = two successive `gen_r1` draws. -/
def gen_r2 (s : RngState) : Option ((ℚ × ℚ) × RngState) :=
  match s.gen_r1 with
  | none => none
  | some (a, s₁) =>
    match s₁.gen_r1 with
    | none => none
    | some (b, s₂) => some ((a, b), s₂)

/-- `gen_r3` = three successive `gen_r1` draws. -/
def gen_r3 (s : RngState) : Option ((ℚ × ℚ × ℚ) × RngState) :=
  match s.gen_r2 with
  | none => none
  | some ((a, b), s₂) =>
    match s₂.gen_r1 with
    | none => none
    | some (c, s₃) => some ((a, b, c), s₃)

end RngState

/-! ### `shared_structs::LightPickEntry` and `kernels/src/light_pick.rs::pick_light` -/

/-- `shared_structs::LightPickEntry` (areas/pdfs idealised as exact
rationals). -/
structure LightPickEntry where
  triangle_index_a : ℕ
  triangle_area_a : ℚ
  triangle_pick_pdf_a : ℚ
  triangle_index_b : ℕ
  triangle_area_b : ℚ
  triangle_pick_pdf_b : ℚ
  ratio : ℚ
deriving DecidableEq, Repr

instance : Inhabited LightPickEntry := ⟨⟨0, 0, 0, 0, 0, 0, 0⟩⟩

/-- `LightPickEntry::is_sentinel`: `ratio < 0`. -/
def LightPickEntry.is_sentinel (e : LightPickEntry) : Bool := qlt e.ratio 0

/-- `kernels/light_pick::pick_light`: draw `gen_r2`, index
`(rng.x * table.len() as f32) as usize` (the float product is exact at the
values arising here; the `as usize` cast truncates toward zero), then pick
outcome `a` or `b` by comparing `rng.y` against `ratio`.  Returns `none`
on a table-index panic (bin index out of bounds) or an RNG panic. -/
def pick_light (table : List LightPickEntry) (rng : RngState) :
    Option ((ℕ × ℚ × ℚ) × RngState) :=
  match rng.gen_r2 with
  | none => none
  | some ((r1, r2), rng') =>
    let bin := qtoUsize (qmul r1 (table.length : ℚ))
    match table.get? bin with
    | none => none
    | some entry =>
      if qlt r2 entry.ratio then
        some ((entry.triangle_index_a, entry.triangle_area_a, entry.triangle_pick_pdf_a), rng')
      else
        some ((entry.triangle_index_b, entry.triangle_area_b, entry.triangle_pick_pdf_b), rng')

/-! ### `shared_structs`: `NextEventEstimation`, and the kernel's BSDF sample record -/

/-- `shared_structs::NextEventEstimation`. -/
inductive NextEventEstimation where
  | None
  | MultipleImportanceSampling
  | DirectLightSampling
deriving DecidableEq, Repr, Inhabited

namespace NextEventEstimation

/-- `NextEventEstimation::from_u32` (unknown values map to `None`). -/
def from_u32 (value : ℕ) : NextEventEstimation :=
  match value with
  | 0 => None
  | 1 => MultipleImportanceSampling
  | 2 => DirectLightSampling
  | _ => None

/-- `NextEventEstimation::uses_mis`. -/
def uses_mis : NextEventEstimation → Bool
  | MultipleImportanceSampling => true
  | _ => false

/-- `NextEventEstimation::uses_nee`. -/
def uses_nee : NextEventEstimation → Bool
  | None => false
  | _ => true

end NextEventEstimation

/-- `kernels/bsdf::LobeType` (default is `DiffuseReflection`). -/
inductive LobeType where
  | DiffuseReflection
  | SpecularReflection
  | DiffuseTransmission
  | SpecularTransmission
deriving DecidableEq, Repr

instance : Inhabited LobeType := ⟨LobeType.DiffuseReflection⟩

/-- `kernels/bsdf::BSDFSample` (Rust `Default`: all-zero spectrum and
direction, pdf 0, diffuse lobe). -/
structure BSDFSample where
  pdf : F
  sampled_lobe : LobeType
  spectrum : V3F
  sampled_direction : V3F
deriving DecidableEq, Repr

instance : Inhabited BSDFSample :=
  ⟨⟨F.fin 0, LobeType.DiffuseReflection, V3F.zero, V3F.zero⟩⟩

/-! ### The per-pixel tracer `main_material` (`kernels/src/lib.rs` 337–453)

The bounce loop is embedded with its control flow, radiance/throughput
arithmetic, `mask_nan` masking and RNG-draw accounting translated from
the source.  The results of the geometric subroutines — BVH intersection,
barycentric interpolation, texture fetches, the BSDF sample value, the
direct-light contribution, the MIS contribution and the skybox radiance —
are supplied by a per-bounce oracle (`BounceData`), since in the source
they are functions of scene buffers that the loop merely consumes.  The
RNG draws those subroutines perform are replayed exactly (3 draws in
`PBR::sample`, 2+2 in `sample_direct_lighting` via `pick_light` and
`pick_triangle_point` unless the sentinel entry short-circuits it, 2 for
the anti-aliasing jitter, 1 for Russian roulette). -/

/-- The subroutine results consumed by one iteration of the bounce loop. -/
structure BounceData where
  hit : Bool
  backface : Bool
  emissive : V3F
  bsdf : BSDFSample
  lightContribution : V3F
  misContribution : V3F
  skybox : V3F
deriving Repr, Inhabited

/-- The fields of `shared_structs::TracingConfig` the bounce loop reads. -/
structure TracingConfig where
  min_bounces : ℕ
  max_bounces : ℕ
  nee : ℕ
deriving Repr, Inhabited

/-- The mutable per-sample state of the bounce loop. -/
structure TraceState where
  radiance : V3F
  throughput : V3F
  lastLobe : LobeType
  rng : RngState
  bouncesRun : ℕ
deriving Repr, Inhabited, DecidableEq

/-- Outcome of one loop iteration: `halt` is a `break`, `next` continues. -/
inductive StepRes where
  | halt (st : TraceState)
  | next (st : TraceState)
deriving Repr, Inhabited, DecidableEq

/-- The emission-handling decision of `main_material` lines 351–374:
the nested `if`s inside `if material.emissive.xyz() != Vec3::ZERO`. -/
inductive EmissiveAction where
  | killBackface
  | addEmissionBreak
  | addMisBreak
  | fallthrough
deriving DecidableEq, Repr

/-- Translation of the emissive-hit branch structure: back-faces break;
`!nee || bounce == 0 || lobe != Diffuse` adds the emission and breaks;
`uses_mis && lobe == Diffuse` adds the MIS contribution and breaks;
otherwise control FALLS THROUGH to the regular material path. -/
def emissiveDecision (nee : Bool) (usesMis : Bool) (bounce : ℕ) (backface : Bool)
    (lastLobe : LobeType) : EmissiveAction :=
  if backface then .killBackface
  else if !nee || bounce == 0 || !(lastLobe == LobeType.DiffuseReflection) then .addEmissionBreak
  else if usesMis && lastLobe == LobeType.DiffuseReflection then .addMisBreak
  else .fallthrough

/-- The tail of the material path after the NEE block: throughput
attenuation `throughput *= spectrum / pdf` followed by Russian roulette
(`if bounce > min_bounces`, one `gen_r1` draw, survival scales the
throughput by `1 / prob`). -/
def materialTail (cfg : TracingConfig) (sample : BSDFSample) (bounce : ℕ)
    (st₂ : TraceState) : Option StepRes :=
  let st₃ : TraceState :=
    { st₂ with throughput := st₂.throughput.mul (sample.spectrum.divScalar sample.pdf) }
  if bounce > cfg.min_bounces then
    match st₃.rng.gen_r1 with
    | none => none
    | some (r, rng₄) =>
      let prob := st₃.throughput.maxElement
      if prob.lt (F.fin r) then
        some (.halt { st₃ with rng := rng₄ })
      else
        some (.next { st₃ with
                       rng := rng₄,
                       throughput := st₃.throughput.mulScalar ((F.fin 1).div prob) })
  else
    some (.next st₃)

/-- The regular material path of one bounce: BSDF sampling (3 RNG draws),
optional next-event estimation (4 RNG draws unless the light buffer starts
with the sentinel entry), then `materialTail`.  `none` models an RNG
dimension panic. -/
def materialPath (cfg : TracingConfig) (sentinel : Bool) (orc : BounceData) (bounce : ℕ)
    (st : TraceState) : Option StepRes :=
  let neeMode := NextEventEstimation.from_u32 cfg.nee
  let nee := neeMode.uses_nee
  match st.rng.gen_r3 with
  | none => none
  | some (_, rng₁) =>
    let sample := orc.bsdf
    let st₁ : TraceState := { st with rng := rng₁, lastLobe := sample.sampled_lobe }
    if nee && sample.sampled_lobe == LobeType.DiffuseReflection then
      if sentinel then
        materialTail cfg sample bounce
          { st₁ with radiance := st₁.radiance.add (mask_nan V3F.zero) }
      else
        match rng₁.gen_r2 with
        | none => none
        | some (_, rng₂) =>
          match rng₂.gen_r2 with
          | none => none
          | some (_, rng₃) =>
            materialTail cfg sample bounce
              { st₁ with
                 rng := rng₃,
                 radiance := st₁.radiance.add (mask_nan orc.lightContribution) }
    else
      materialTail cfg sample bounce st₁

/-- One iteration of the bounce loop of `main_material`. -/
def traceBounce (cfg : TracingConfig) (sentinel : Bool) (orc : BounceData) (bounce : ℕ)
    (st : TraceState) : Option StepRes :=
  let neeMode := NextEventEstimation.from_u32 cfg.nee
  let nee := neeMode.uses_nee
  if orc.hit = false then
    some (.halt { st with radiance := st.radiance.add (st.throughput.mul orc.skybox) })
  else if (orc.emissive.feq V3F.zero) = false then
    match emissiveDecision nee neeMode.uses_mis bounce orc.backface st.lastLobe with
    | .killBackface => some (.halt st)
    | .addEmissionBreak =>
        some (.halt { st with
                       radiance := st.radiance.add (mask_nan (st.throughput.mul orc.emissive)) })
    | .addMisBreak =>
        some (.halt { st with radiance := st.radiance.add (mask_nan orc.misContribution) })
    | .fallthrough => materialPath cfg sentinel orc bounce st
  else
    materialPath cfg sentinel orc bounce st

/-- The bounce loop `for bounce in 0..max_bounces`, counting executed
iterations in `bouncesRun`. -/
def traceLoop (cfg : TracingConfig) (sentinel : Bool) (orc : ℕ → BounceData) :
    ℕ → ℕ → TraceState → Option TraceState
  | _, 0, st => some st
  | bounce, remaining + 1, st =>
    let st₀ : TraceState := { st with bouncesRun := st.bouncesRun + 1 }
    match traceBounce cfg sentinel (orc bounce) bounce st₀ with
    | none => none
    | some (.halt st') => some st'
    | some (.next st') => traceLoop cfg sentinel orc (bounce + 1) remaining st'

/-- `main_material`: the anti-aliasing jitter draw (`gen_r2`) followed by
the bounce loop starting from throughput 1, radiance 0 and a default BSDF
sample; the returned `radiance` is the per-sample value added to the
output accumulator (`output[index] += radiance.extend(1.0)`).  The
camera-ray setup is pure geometry consumed by the oracle and is not
tracked. -/
def main_material (cfg : TracingConfig) (sentinel : Bool) (orc : ℕ → BounceData)
    (rng₀ : RngState) : Option TraceState :=
  match rng₀.gen_r2 with
  | none => none
  | some (_, rng₁) =>
    traceLoop cfg sentinel orc 0 cfg.max_bounces
      { radiance := V3F.zero, throughput := V3F.one,
        lastLobe := LobeType.DiffuseReflection, rng := rng₁, bouncesRun := 0 }

/-! ### `src/light_pick.rs`: the light-pick table builder

Embedded over exact rationals.  `f32::sqrt` is modelled by an exact
square root that is correct on perfect squares (the concrete inputs
evaluated in this development only take square roots of perfect squares)
and returns 0 elsewhere; the general theorems below hold for arbitrary
area values, so this does not weaken them. -/

/-- Exact square-root test by bounded search (kernel-computable). -/
def natSqrtE (n : ℕ) : Option ℕ := (List.range (n + 1)).find? (fun k => k * k == n)

/-- Model of `f32::sqrt` on nonnegative rationals: exact on perfect
squares, 0 on non-squares and negatives. -/
def qsqrt (q : ℚ) : ℚ :=
  if qle 0 q then
    match natSqrtE q.num.toNat, natSqrtE q.den with
    | some a, some b => mkRat a b
    | _, _ => 0
  else 0

/-- A `glam::Vec3` of exact rationals (used for finite geometric data). -/
structure V3Q where
  x : ℚ
  y : ℚ
  z : ℚ
deriving DecidableEq, Repr, Inhabited

namespace V3Q

def sub (a b : V3Q) : V3Q := ⟨qsub a.x b.x, qsub a.y b.y, qsub a.z b.z⟩

def dot (a b : V3Q) : ℚ :=
  qadd (qadd (qmul a.x b.x) (qmul a.y b.y)) (qmul a.z b.z)

/-- `Vec3::length` = `sqrt(self.dot(self))`. -/
def length (a : V3Q) : ℚ := qsqrt (a.dot a)

end V3Q

/-- A `glam::UVec4` (used for index-buffer entries: three vertex ids and
the material id in `w`). -/
structure UVec4N where
  x : ℕ
  y : ℕ
  z : ℕ
  w : ℕ
deriving DecidableEq, Repr, Inhabited

/-- The field of `shared_structs::MaterialData` that the light-pick
builder reads (`emissive.xyz()`). -/
structure MaterialData where
  emissive : V3Q
deriving DecidableEq, Repr, Inhabited

/-- `light_pick::triangle_area`, Heron's formula. -/
def triangle_area (a b c : V3Q) : ℚ :=
  let side_a := (b.sub a).length
  let side_b := (c.sub b).length
  let side_c := (a.sub c).length
  let s := qdiv (qadd (qadd side_a side_b) side_c) 2
  qsqrt (qmul (qmul (qmul s (qsub s side_a)) (qsub s side_b)) (qsub s side_c))

/-- Area of triangle `i` of the index buffer. -/
def triAreaAt (vertices : List V3Q) (indices : List UVec4N) (i : ℕ) : ℚ :=
  let tri := indices.getD i ⟨0, 0, 0, 0⟩
  triangle_area (vertices.getD tri.x ⟨0, 0, 0⟩) (vertices.getD tri.y ⟨0, 0, 0⟩)
    (vertices.getD tri.z ⟨0, 0, 0⟩)

/-- The per-triangle areas (0 for masked-out triangles). -/
def lightAreas (vertices : List V3Q) (indices : List UVec4N) (mask : List Bool) : List ℚ :=
  (List.range indices.length).map fun i =>
    if mask.getD i false then triAreaAt vertices indices i else 0

/-- The per-triangle powers `emissive.dot(Vec3::ONE) * area` (0 for
masked-out triangles). -/
def lightPowers (vertices : List V3Q) (indices : List UVec4N) (mask : List Bool)
    (materials : List MaterialData) : List ℚ :=
  (List.range indices.length).map fun i =>
    if mask.getD i false then
      let tri := indices.getD i ⟨0, 0, 0, 0⟩
      qmul ((materials.getD tri.w ⟨⟨0, 0, 0⟩⟩).emissive.dot ⟨1, 1, 1⟩)
        (triAreaAt vertices indices i)
    else 0

/-- `total_tris`: the number of mask-selected triangles. -/
def totalTris (indices : List UVec4N) (mask : List Bool) : ℕ :=
  ((List.range indices.length).filter fun i => mask.getD i false).length

/-- `total_power`. -/
def totalPower (vertices : List V3Q) (indices : List UVec4N) (mask : List Bool)
    (materials : List MaterialData) : ℚ :=
  (lightPowers vertices indices mask materials).foldl qadd 0

/-- The normalised per-triangle pick probabilities. -/
def lightProbs (vertices : List V3Q) (indices : List UVec4N) (mask : List Bool)
    (materials : List MaterialData) : List ℚ :=
  (lightPowers vertices indices mask materials).map fun p =>
    qdiv p (totalPower vertices indices mask materials)

/-- `average_probability = probabilities.sum() / total_tris`. -/
def averageProb (vertices : List V3Q) (indices : List UVec4N) (mask : List Bool)
    (materials : List MaterialData) : ℚ :=
  qdiv ((lightProbs vertices indices mask materials).foldl qadd 0)
    (totalTris indices mask)

/-- The builder's intermediate `TriangleBin`. -/
structure TriangleBin where
  index_a : ℕ
  probability_a : ℚ
  index_b : ℕ
  probability_b : ℚ
deriving DecidableEq, Repr, Inhabited

/-- The bins before sorting: one per triangle with nonzero probability,
`index_b = 0` and `probability_b = 0`. -/
def initialBins (vertices : List V3Q) (indices : List UVec4N) (mask : List Bool)
    (materials : List MaterialData) : List TriangleBin :=
  ((lightProbs vertices indices mask materials).enum.map fun x =>
      TriangleBin.mk x.1 x.2 0 0).filter fun b => !(b.probability_a == 0)

/-- Stable insertion of a bin into an ascending-by-`probability_a` list
(equal keys keep their relative order, as Rust's stable `sort_by`). -/
def insertAsc (x : TriangleBin) : List TriangleBin → List TriangleBin
  | [] => [x]
  | y :: ys =>
    if qlt x.probability_a y.probability_a then x :: y :: ys else y :: insertAsc x ys

/-- Stable ascending sort by `probability_a`: elements are inserted left
to right, each after all earlier elements with a key `≤` its own, so
equal keys keep their original relative order — the unique stable-sorted
permutation, hence equal to Rust's stable `sort_by(partial_cmp)` on
these NaN-free keys. -/
def sortBins (l : List TriangleBin) : List TriangleBin :=
  l.foldl (fun acc x => insertAsc x acc) []

/-- The sorted bins of the builder. -/
def sortedBins (vertices : List V3Q) (indices : List UVec4N) (mask : List Bool)
    (materials : List MaterialData) : List TriangleBin :=
  sortBins (initialBins vertices indices mask materials)

/-- The robin-hood redistribution loop (`for i in 0..num_bins` with an
early break): take the deficit of bin `i` from bin `most_probable`, and
move `most_probable` down once its remaining mass is at most the
average.  `count` is the number of iterations left; `none` models an
index panic (including the `most_probable` usize underflow). -/
def rhGo (avg : ℚ) : ℕ → ℕ → List TriangleBin → ℕ → Option (List TriangleBin)
  | 0, _, bins, _ => some bins
  | count + 1, i, bins, mp =>
    match bins[i]? with
    | none => none
    | some bi =>
      let needed := qsub avg bi.probability_a
      if qle needed 0 then some bins
      else
        match bins[mp]? with
        | none => none
        | some bmp =>
          let bins₁ := bins.set i { bi with index_b := bmp.index_a, probability_b := needed }
          match bins₁[mp]? with
          | none => none
          | some bmp₁ =>
            let bins₂ := bins₁.set mp { bmp₁ with probability_a := qsub bmp₁.probability_a needed }
            if qle (qsub bmp₁.probability_a needed) avg then
              match mp with
              | 0 => none
              | mp' + 1 => rhGo avg count (i + 1) bins₂ mp'
            else
              rhGo avg count (i + 1) bins₂ mp

/-- The robin-hood pass over the sorted bins. -/
def robinBins (vertices : List V3Q) (indices : List UVec4N) (mask : List Bool)
    (materials : List MaterialData) : Option (List TriangleBin) :=
  let sb := sortedBins vertices indices mask materials
  match sb.length with
  | 0 => none
  | numBins + 1 =>
    rhGo (averageProb vertices indices mask materials) (numBins + 1) 0 sb numBins

/-- `light_pick::build_light_pick_table`.  Returns the sentinel entry when
no triangle is mask-selected; `none` models a builder panic. -/
def build_light_pick_table (vertices : List V3Q) (indices : List UVec4N) (mask : List Bool)
    (materials : List MaterialData) : Option (List LightPickEntry) :=
  if totalTris indices mask = 0 then
    some [{ triangle_index_a := 0, triangle_area_a := 0, triangle_pick_pdf_a := 0,
            triangle_index_b := 0, triangle_area_b := 0, triangle_pick_pdf_b := 0,
            ratio := -1 }]
  else
    let probs := lightProbs vertices indices mask materials
    let areas := lightAreas vertices indices mask
    match robinBins vertices indices mask materials with
    | none => none
    | some bins =>
      some (bins.map fun x =>
        { triangle_index_a := x.index_a
          triangle_area_a := areas.getD x.index_a 0
          triangle_pick_pdf_a := probs.getD x.index_a 0
          triangle_index_b := x.index_b
          triangle_area_b := areas.getD x.index_b 0
          triangle_pick_pdf_b := probs.getD x.index_b 0
          ratio := qdiv x.probability_a (qadd x.probability_a x.probability_b) })

/-- The mass a bin list assigns to triangle `j`. -/
def fMass (j : ℕ) (b : TriangleBin) : ℚ :=
  qadd (if b.index_a = j then b.probability_a else 0)
    (if b.index_b = j then b.probability_b else 0)

/-- Total mass bins assign to triangle `j`. -/
def binsMass (bins : List TriangleBin) (j : ℕ) : ℚ :=
  bins.foldl (fun acc b => qadd acc (fMass j b)) 0

/-- The total stored mass of the bins, `Σ (probability_a + probability_b)`. -/
def binsTotal (bins : List TriangleBin) : ℚ :=
  bins.foldl (fun acc b => qadd acc (qadd b.probability_a b.probability_b)) 0

/-- The probability that the sampling procedure of `pick_light` returns
triangle `j`: a bin is chosen uniformly (probability `1 / table.len()`),
then outcome `a` is returned with probability `ratio` and outcome `b`
with probability `1 - ratio`. -/
def inducedProb (table : List LightPickEntry) (j : ℕ) : ℚ :=
  qdiv
    (table.foldl
      (fun acc e =>
        qadd acc
          (qadd (if e.triangle_index_a = j then e.ratio else 0)
            (if e.triangle_index_b = j then qsub 1 e.ratio else 0)))
      0)
    (table.length)

/-! Concrete light-pick scenes: four (resp. two) congruent 3-4-5 right
triangles with emissive intensities chosen to give pick probabilities
`(1/20, 6/20, 6/20, 7/20)` (resp. `(1/4, 3/4)`). -/

def vertsC3 : List V3Q :=
  [⟨0, 0, 0⟩, ⟨3, 0, 0⟩, ⟨0, 4, 0⟩,
   ⟨10, 0, 0⟩, ⟨13, 0, 0⟩, ⟨10, 4, 0⟩,
   ⟨20, 0, 0⟩, ⟨23, 0, 0⟩, ⟨20, 4, 0⟩,
   ⟨30, 0, 0⟩, ⟨33, 0, 0⟩, ⟨30, 4, 0⟩]

def trisC3 : List UVec4N := [⟨0, 1, 2, 0⟩, ⟨3, 4, 5, 1⟩, ⟨6, 7, 8, 2⟩, ⟨9, 10, 11, 3⟩]

def matsC3 : List MaterialData := [⟨⟨1, 0, 0⟩⟩, ⟨⟨6, 0, 0⟩⟩, ⟨⟨6, 0, 0⟩⟩, ⟨⟨7, 0, 0⟩⟩]

def maskC3 : List Bool := [true, true, true, true]

def vertsC3w : List V3Q := [⟨0, 0, 0⟩, ⟨3, 0, 0⟩, ⟨0, 4, 0⟩, ⟨10, 0, 0⟩, ⟨13, 0, 0⟩, ⟨10, 4, 0⟩]

def trisC3w : List UVec4N := [⟨0, 1, 2, 0⟩, ⟨3, 4, 5, 1⟩]

def matsC3w : List MaterialData := [⟨⟨1, 0, 0⟩⟩, ⟨⟨3, 0, 0⟩⟩]

def maskC3w : List Bool := [true, true]

/-- The table the builder produces for the 4-triangle scene: the
robin-hood pass breaks at `i = 1` (bin 1 already holds at least the
average), leaving bin 3 deficient with mass `3/20 < 1/4`. -/
def tableC3 : List LightPickEntry :=
  [⟨0, 6, mkRat 1 20, 3, 6, mkRat 7 20, mkRat 1 5⟩,
   ⟨1, 6, mkRat 3 10, 0, 6, mkRat 1 20, 1⟩,
   ⟨2, 6, mkRat 3 10, 0, 6, mkRat 1 20, 1⟩,
   ⟨3, 6, mkRat 7 20, 0, 6, mkRat 1 20, 1⟩]

/-- The bins and table of the 2-triangle scene (a run in which the
robin-hood pass ends with every bin holding exactly the average mass). -/
def binsC3w : List TriangleBin :=
  [⟨0, mkRat 1 4, 1, mkRat 1 4⟩, ⟨1, mkRat 1 2, 0, 0⟩]

def tableC3w : List LightPickEntry :=
  [⟨0, 6, mkRat 1 4, 1, 6, mkRat 3 4, mkRat 1 2⟩,
   ⟨1, 6, mkRat 3 4, 0, 6, mkRat 1 4, 1⟩]

/-! ### `src/bvh.rs` (builder) and `kernels/src/intersection.rs` (traversal)

Geometric data (vertices, centroids, ray origin/direction) is exact
rational; AABB bounds are `F` because the builder seeds them with the
infinities of the default `BVHNode` and the slab test divides by ray
components that may be zero.  The counters stored in the f32 `w`-lanes by
bit-transmutation in the source are modelled as plain naturals
(`triCount` in `aabb_min.w`, `payload` in `aabb_max.w`; `payload` is the
single slot holding the left-child index of an interior node and the
first-triangle index of a leaf).  Loops whose termination the source
takes for granted take a fuel argument; fuel exhaustion returns `none`
and is unreachable at the fuel values used (each recursion strictly
shrinks its range). -/

namespace V3F

def sub3 (a b : V3F) : V3F := ⟨a.x.sub b.x, a.y.sub b.y, a.z.sub b.z⟩

/-- `glam` componentwise `Vec3::min` (Rust `f32::min` semantics). -/
def rmin3 (a b : V3F) : V3F := ⟨a.x.rmin b.x, a.y.rmin b.y, a.z.rmin b.z⟩

/-- `glam` componentwise `Vec3::max`. -/
def rmax3 (a b : V3F) : V3F := ⟨a.x.rmax b.x, a.y.rmax b.y, a.z.rmax b.z⟩

def inf3 : V3F := ⟨F.inf, F.inf, F.inf⟩

def ninf3 : V3F := ⟨F.ninf, F.ninf, F.ninf⟩

end V3F

namespace V3Q

def add (a b : V3Q) : V3Q := ⟨qadd a.x b.x, qadd a.y b.y, qadd a.z b.z⟩

def cross (a b : V3Q) : V3Q :=
  ⟨qsub (qmul a.y b.z) (qmul a.z b.y),
   qsub (qmul a.z b.x) (qmul a.x b.z),
   qsub (qmul a.x b.y) (qmul a.y b.x)⟩

def divS (a : V3Q) (s : ℚ) : V3Q := ⟨qdiv a.x s, qdiv a.y s, qdiv a.z s⟩

def toF (a : V3Q) : V3F := ⟨F.fin a.x, F.fin a.y, F.fin a.z⟩

/-- `Vec3` component indexing (`v[axis]`, axis ∈ {0,1,2}). -/
def axis (v : V3Q) : ℕ → ℚ
  | 0 => v.x
  | 1 => v.y
  | _ => v.z

end V3Q

/-- Rust `as usize` on f32: truncation toward zero, saturating (NaN to 0,
negatives to 0, `+inf` to `usize::MAX`). -/
def F.toUsize : F → ℕ
  | F.fin q => qtoUsize q
  | F.nan => 0
  | F.inf => 18446744073709551615
  | F.ninf => 0

/-- `shared_structs::BVHNode`: two AABB corners; `triCount` (min `w`
lane): 0 means interior; `payload` (max `w` lane): left child when
interior, first triangle when leaf. -/
structure BVHNode where
  aabbMin : V3F
  aabbMax : V3F
  triCount : ℕ
  payload : ℕ
deriving DecidableEq, Repr

/-- `BVHNode::default()`: an inverted-infinite AABB with zero counters. -/
instance : Inhabited BVHNode := ⟨⟨V3F.inf3, V3F.ninf3, 0, 0⟩⟩

/-- `BVHNode::is_leaf`: `triangle_count() > 0`. -/
def BVHNode.is_leaf (n : BVHNode) : Bool := decide (0 < n.triCount)

/-- `BVHNodeExtensions::area`: `extent.x*extent.y + extent.y*extent.z +
extent.z*extent.x` of `aabb_max - aabb_min`. -/
def nodeArea (n : BVHNode) : F :=
  let e := n.aabbMax.sub3 n.aabbMin
  ((e.x.mul e.y).add (e.y.mul e.z)).add (e.z.mul e.x)

/-- `BVHNodeExtensions::encapsulate` (grow the AABB by a point). -/
def encapsulateP (n : BVHNode) (p : V3F) : BVHNode :=
  { n with aabbMin := n.aabbMin.rmin3 p, aabbMax := n.aabbMax.rmax3 p }

/-- `BVHNodeExtensions::encapsulate_node` (skips boxes whose
`aabb_min.x == f32::INFINITY`, i.e. never-touched default boxes). -/
def encapsulateNode (n other : BVHNode) : BVHNode :=
  if other.aabbMin.x.feq F.inf then n
  else { n with aabbMin := n.aabbMin.rmin3 other.aabbMin,
                aabbMax := n.aabbMax.rmax3 other.aabbMax }

/-- `BVHBuilder`'s mutable state: the node array, the (permutable) index
array, the parallel centroid array, and the allocated-node counter. -/
structure BuildState where
  nodes : List BVHNode
  indices : List UVec4N
  centroids : List V3Q
  nodeCount : ℕ
deriving DecidableEq, Repr

/-- `BVHBuilder::new`'s `sah_samples` default. -/
def SAH_SAMPLES : ℕ := 128

/-- `BVHBuilder::update_node_aabb`: recompute a node's AABB from its
triangles' vertices, starting from `(+inf, -inf)`. -/
def updateNodeAabb (vertices : List V3Q) (s : BuildState) (nodeIdx : ℕ) : BuildState :=
  let node := s.nodes.getD nodeIdx default
  let mm := (List.range node.triCount).foldl
    (fun (mm : V3F × V3F) i =>
      let ind := s.indices.getD (node.payload + i) default
      let v0 := (vertices.getD ind.x default).toF
      let v1 := (vertices.getD ind.y default).toF
      let v2 := (vertices.getD ind.z default).toF
      (mm.1.rmin3 ((v0.rmin3 v1).rmin3 v2), mm.2.rmax3 ((v0.rmax3 v1).rmax3 v2)))
    (V3F.inf3, V3F.ninf3)
  let node' : BVHNode := { node with aabbMin := mm.1, aabbMax := mm.2 }
  { s with nodes := s.nodes.set nodeIdx node' }

/-- A SAH segment: an accumulating AABB (held in a `BVHNode` as the
source does) and a triangle count. -/
structure Segment where
  aabb : BVHNode
  triangle_count : ℕ

instance : Inhabited Segment := ⟨⟨default, 0⟩⟩

/-- Centroid bounds of a node's triangles along one axis (`f32::min` /
`f32::max` folds seeded with the infinities). -/
def axisBounds (s : BuildState) (first count axis : ℕ) : F × F :=
  (List.range count).foldl
    (fun (bm : F × F) ti =>
      let c := F.fin ((s.centroids.getD (first + ti) default).axis axis)
      (bm.1.rmin c, bm.2.rmax c))
    (F.inf, F.ninf)

/-- The prefix sweep of `find_best_split_segmented`: walking a segment
list, emit for each position the accumulated box area and triangle
count (`encapsulate_node` skips empty boxes). -/
def sweepGo (box : BVHNode) (sum : ℕ) : List Segment → List (F × ℕ)
  | [] => []
  | sg :: rest =>
    let box' := encapsulateNode box sg.aabb
    let sum' := sum + sg.triangle_count
    (nodeArea box', sum') :: sweepGo box' sum' rest

/-- One axis of `BVHBuilder::find_best_split_segmented`: skip flat axes;
otherwise bucket the triangles into `SAH_SAMPLES` equal-width segments,
compute prefix/suffix area-and-count sweeps, and fold the segmented SAH
cost `left_count * left_area + right_count * right_area` over the
`SAH_SAMPLES - 1` candidate planes, keeping the strictly best
`(axis, split, cost)`. -/
def bestForAxis (vertices : List V3Q) (s : BuildState) (first count axis : ℕ)
    (best : ℕ × F × F) : ℕ × F × F :=
  let bounds := axisBounds s first count axis
  let bmin := bounds.1
  let bmax := bounds.2
  if bmin.feq bmax then best
  else
    let scale := (F.fin (SAH_SAMPLES : ℚ)).div (bmax.sub bmin)
    let segments := (List.range count).foldl
      (fun (segs : List Segment) ti =>
        let t := first + ti
        let ind := s.indices.getD t default
        let v0 := (vertices.getD ind.x default).toF
        let v1 := (vertices.getD ind.y default).toF
        let v2 := (vertices.getD ind.z default).toF
        let si := min
          (((F.fin ((s.centroids.getD t default).axis axis)).sub bmin).mul scale).toUsize
          (SAH_SAMPLES - 1)
        let sg := segs.getD si default
        segs.set si
          { aabb := encapsulateP (encapsulateP (encapsulateP sg.aabb v0) v1) v2,
            triangle_count := sg.triangle_count + 1 })
      (List.replicate SAH_SAMPLES default)
    let leftList := sweepGo default 0 (segments.take (SAH_SAMPLES - 1))
    let rightList := (sweepGo default 0 ((segments.drop 1).reverse)).reverse
    let scale2 := (bmax.sub bmin).div (F.fin (SAH_SAMPLES : ℚ))
    (List.range (SAH_SAMPLES - 1)).foldl
      (fun (best : ℕ × F × F) i =>
        let la := leftList.getD i (F.inf, 0)
        let ra := rightList.getD i (F.inf, 0)
        let cost := ((F.fin (la.2 : ℚ)).mul la.1).add ((F.fin (ra.2 : ℚ)).mul ra.1)
        if cost.lt best.2.2 then
          (axis, bmin.add (scale2.mul (F.fin ((i + 1 : ℕ) : ℚ))), cost)
        else best)
      best

/-- `BVHBuilder::find_best_split_segmented`: fold the three axes starting
from `(0, 0.0, +inf)`. -/
def findBestSplitSegmented (vertices : List V3Q) (s : BuildState) (first count : ℕ) :
    ℕ × F × F :=
  [0, 1, 2].foldl (fun best axis => bestForAxis vertices s first count axis best)
    (0, F.fin 0, F.inf)

/-- The in-place Hoare partition of `BVHBuilder::build`: advance `a` over
centroids `< split`, otherwise swap positions `a` and `b` in both the
index and centroid arrays and decrement `b`.  `none` models the panics
(out-of-bounds reads, and the `b` underflow when `b = 0`).  `fuel`
bounds the iterations; `b + 2 - a` iterations always suffice. -/
def partitionGo (axis : ℕ) (split : F) :
    ℕ → List UVec4N → List V3Q → ℕ → ℕ → Option (List UVec4N × List V3Q × ℕ)
  | 0, _, _, _, _ => none
  | fuel + 1, inds, cents, a, b =>
    if a ≤ b then
      match cents[a]? with
      | none => none
      | some ca =>
        if (F.fin (ca.axis axis)).lt split then
          partitionGo axis split fuel inds cents (a + 1) b
        else
          match cents[b]? with
          | none => none
          | some cb =>
            let ia := inds.getD a default
            let ib := inds.getD b default
            let inds' := (inds.set a ib).set b ia
            let cents' := (cents.set a cb).set b ca
            match b with
            | 0 => none
            | b' + 1 => partitionGo axis split fuel inds' cents' a b'
    else
      some (inds, cents, a)

/-- The child-creation step of `BVHBuilder::build` after a successful
partition at position `a`: the parent at `nodeIdx` becomes an interior
node pointing at the two fresh slots `node_count` and `node_count + 1`,
which receive the sub-ranges `[first, a)` and `[a, first+count)`, both
AABBs are recomputed, and the permuted index/centroid arrays are
installed. -/
def splitState (vertices : List V3Q) (s : BuildState) (nodeIdx : ℕ)
    (inds' : List UVec4N) (cents' : List V3Q) (a : ℕ) : BuildState :=
  let node := s.nodes.getD nodeIdx default
  let first := node.payload
  let count := node.triCount
  let leftIdx := s.nodeCount
  let rightIdx := s.nodeCount + 1
  let nodes₁ := s.nodes.set nodeIdx { node with payload := leftIdx, triCount := 0 }
  let nodes₂ := nodes₁.set leftIdx
    { (nodes₁.getD leftIdx default) with payload := first, triCount := a - first }
  let nodes₃ := nodes₂.set rightIdx
    { (nodes₂.getD rightIdx default) with payload := a, triCount := count - (a - first) }
  let s₂ : BuildState := { nodes := nodes₃, indices := inds', centroids := cents',
                           nodeCount := s.nodeCount + 2 }
  updateNodeAabb vertices (updateNodeAabb vertices s₂ leftIdx) rightIdx

/-- The node-splitting recursion of `BVHBuilder::build` (the source's
explicit-stack loop in recursive form; children are allocated at
`node_count` and `node_count + 1` and processed left first, which
reproduces the loop's allocation order exactly).  `fuel` bounds the
recursion depth; it never runs out at the values used because each
child's triangle count is strictly smaller than its parent's. -/
def buildGo (vertices : List V3Q) :
    ℕ → BuildState → ℕ → Option BuildState
  | 0, _, _ => none
  | fuel + 1, s, nodeIdx =>
    let node := s.nodes.getD nodeIdx default
    let first := node.payload
    let count := node.triCount
    let best := findBestSplitSegmented vertices s first count
    let parentCost := (nodeArea node).mul (F.fin (count : ℚ))
    if parentCost.le best.2.2 then some s
    else
      match partitionGo best.1 best.2.1 (count + 1) s.indices s.centroids first
          (first + count - 1) with
      | none => none
      | some (inds', cents', a) =>
        if a - first = 0 ∨ a - first = count then
          some { s with indices := inds', centroids := cents' }
        else
          let s₄ := splitState vertices s nodeIdx inds' cents' a
          match buildGo vertices fuel s₄ s.nodeCount with
          | none => none
          | some s₅ => buildGo vertices fuel s₅ (s.nodeCount + 1)

/-- The builder state after `BVHBuilder::new` and the root setup of
`build`: triangle centroids, `2N - 1` default nodes, the root at slot 0
spanning the full range with its AABB computed, `node_count = 1`. -/
def initState (vertices : List V3Q) (indices : List UVec4N) : BuildState :=
  let centroids := indices.map fun ind =>
    (((vertices.getD ind.x default).add (vertices.getD ind.y default)).add
      (vertices.getD ind.z default)).divS 3
  let nodes := List.replicate (indices.length * 2 - 1) (default : BVHNode)
  let s₀ : BuildState :=
    { nodes := nodes.set 0
        { (nodes.getD 0 default) with payload := 0, triCount := indices.length },
      indices := indices, centroids := centroids, nodeCount := 1 }
  updateNodeAabb vertices s₀ 0

/-- `BVHBuilder::new` followed by `build`: centroids, `2N - 1` default
nodes (`none` for `N = 0`, where the source's `N * 2 - 1` underflows and
panics), root over the full range, the splitting recursion, and the
final truncation to the used node count.  Returns the node array and the
permuted index array. -/
def bvhBuild (vertices : List V3Q) (indices : List UVec4N) :
    Option (List BVHNode × List UVec4N) :=
  if indices.length = 0 then none
  else
    match buildGo vertices (indices.length + 1) (initState vertices indices) 0 with
    | none => none
    | some s₂ => some (s₂.nodes.take s₂.nodeCount, s₂.indices)

/-! ### Ray intersection (`kernels/src/intersection.rs`) -/

/-- `intersection::muller_trumbore`, returning `(hit, out_t, out_backface)`
(`out_t` is 0 unless the hit succeeds; the back-face flag is set from the
determinant sign before any rejection, as in the source). -/
def muller_trumbore (ro rd a b c : V3Q) : Bool × ℚ × Bool :=
  let edge1 := b.sub a
  let edge2 := c.sub a
  let pv := rd.cross edge2
  let det := edge1.dot pv
  let backface := qlt det 0
  if qlt (qabs det) (mkRat 1 1000000) then (false, 0, backface)
  else
    let inv_det := qdiv 1 det
    let tv := ro.sub a
    let u := qmul (tv.dot pv) inv_det
    if qlt u 0 || qlt 1 u then (false, 0, backface)
    else
      let qv := tv.cross edge1
      let v := qmul (rd.dot qv) inv_det
      if qlt v 0 || qlt 1 (qadd u v) then (false, 0, backface)
      else
        let t := qmul (edge2.dot qv) inv_det
        if qlt t 0 then (false, 0, backface)
        else (true, t, backface)

/-- `intersection::TraceResult` (default `t` is the 1000000 sentinel). -/
structure TraceResult where
  triangle : UVec4N
  triangle_index : ℕ
  t : ℚ
  hit : Bool
  backface : Bool
deriving DecidableEq, Repr

instance : Inhabited TraceResult := ⟨⟨⟨0, 0, 0, 0⟩, 0, 1000000, false, false⟩⟩

/-- `f32::min` on the exact `t` values. -/
def qmin (a b : ℚ) : ℚ := if qlt a b then a else b

/-- `intersection::intersect_slow_as_shit`: test the ray against every
triangle, keeping the nearest hit with `t > 0.001`. -/
def intersect_slow_as_shit (vertex_buffer : List V3Q) (index_buffer : List UVec4N)
    (ro rd : V3Q) : TraceResult :=
  (List.range index_buffer.length).foldl
    (fun (result : TraceResult) i =>
      let triangle := index_buffer.getD i default
      let a := vertex_buffer.getD triangle.x default
      let b := vertex_buffer.getD triangle.y default
      let c := vertex_buffer.getD triangle.z default
      let mtr := muller_trumbore ro rd a b c
      if mtr.1 && qlt (mkRat 1 1000) mtr.2.1 && qlt mtr.2.1 result.t then
        { triangle := triangle, triangle_index := i, t := qmin result.t mtr.2.1,
          hit := true, backface := mtr.2.2 }
      else result)
    default

/-- `intersection::intersect_aabb`, the slab test: per-axis entry/exit
times (dividing by the ray component, which follows IEEE rules for 0 and
produces NaN for a 0/0 graze), combined with Rust `f32::min`/`max`;
returns the entry time when `tmax >= tmin && tmax > 0 && tmin <
prev_min_t`, else `+inf`. -/
def intersect_aabb (aabbMin aabbMax : V3F) (ro rd : V3Q) (prevMinT : ℚ) : F :=
  let tx1 := (aabbMin.x.sub (F.fin ro.x)).div (F.fin rd.x)
  let tx2 := (aabbMax.x.sub (F.fin ro.x)).div (F.fin rd.x)
  let tmin := tx1.rmin tx2
  let tmax := tx1.rmax tx2
  let ty1 := (aabbMin.y.sub (F.fin ro.y)).div (F.fin rd.y)
  let ty2 := (aabbMax.y.sub (F.fin ro.y)).div (F.fin rd.y)
  let tmin := tmin.rmax (ty1.rmin ty2)
  let tmax := tmax.rmin (ty1.rmax ty2)
  let tz1 := (aabbMin.z.sub (F.fin ro.z)).div (F.fin rd.z)
  let tz2 := (aabbMax.z.sub (F.fin ro.z)).div (F.fin rd.z)
  let tmin := tmin.rmax (tz1.rmin tz2)
  let tmax := tmax.rmin (tz1.rmax tz2)
  if tmin.le tmax && (F.fin 0).lt tmax && tmin.lt (F.fin prevMinT) then tmin
  else F.inf

/-- The leaf loop of `intersect_front_to_back`: test the leaf's triangles
in order; in any-hit mode (`nearest = false`) return at the first
accepted hit (second component `true`). -/
def leafScan (perVertex : List V3Q) (indexBuf : List UVec4N) (ro rd : V3Q)
    (maxT : ℚ) (nearest : Bool) : ℕ → ℕ → TraceResult → TraceResult × Bool
  | _, 0, result => (result, false)
  | triangleIndex, k + 1, result =>
    let triangle := indexBuf.getD triangleIndex default
    let a := perVertex.getD triangle.x default
    let b := perVertex.getD triangle.y default
    let c := perVertex.getD triangle.z default
    let mtr := muller_trumbore ro rd a b c
    if mtr.1 && qlt (mkRat 1 1000) mtr.2.1 && qlt mtr.2.1 result.t &&
        (nearest || qle mtr.2.1 maxT) then
      let result' : TraceResult :=
        { triangle := triangle, triangle_index := triangleIndex, t := qmin result.t mtr.2.1,
          hit := true, backface := mtr.2.2 }
      if !nearest then (result', true)
      else leafScan perVertex indexBuf ro rd maxT nearest (triangleIndex + 1) k result'
    else leafScan perVertex indexBuf ro rd maxT nearest (triangleIndex + 1) k result

/-- `BVHReference::intersect_front_to_back`: explicit-stack traversal
(stack modelled top-first; capacity 32, overflow = `none`).  At an
interior node the two children's slab distances decide order and
pruning: if the nearer distance is `+inf` neither child is pushed; a
child at finite distance is pushed, farther first.  `fuel` bounds loop
iterations (`none` when exhausted). -/
def intersectFTB (nodes : List BVHNode) (perVertex : List V3Q) (indexBuf : List UVec4N)
    (ro rd : V3Q) (maxT : ℚ) (nearest : Bool) :
    ℕ → List ℕ → TraceResult → Option TraceResult
  | 0, _, _ => none
  | fuel + 1, stack, result =>
    match stack with
    | [] => some result
    | nodeIndex :: rest =>
      match nodes[nodeIndex]? with
      | none => none
      | some node =>
        if node.is_leaf then
          let scan := leafScan perVertex indexBuf ro rd maxT nearest node.payload
            node.triCount result
          if scan.2 then some scan.1
          else intersectFTB nodes perVertex indexBuf ro rd maxT nearest fuel rest scan.1
        else
          match nodes[node.payload]?, nodes[node.payload + 1]? with
          | some minChild, some maxChild =>
            let minDist := intersect_aabb minChild.aabbMin minChild.aabbMax ro rd result.t
            let maxDist := intersect_aabb maxChild.aabbMin maxChild.aabbMax ro rd result.t
            let swapped := maxDist.lt minDist
            let minIndex := if swapped then node.payload + 1 else node.payload
            let maxIndex := if swapped then node.payload else node.payload + 1
            let minDist' := if swapped then maxDist else minDist
            let maxDist' := if swapped then minDist else maxDist
            if minDist'.isInfinite then
              intersectFTB nodes perVertex indexBuf ro rd maxT nearest fuel rest result
            else
              let stack' := if maxDist'.isFinite then minIndex :: maxIndex :: rest
                            else minIndex :: rest
              if stack'.length > 32 then none
              else intersectFTB nodes perVertex indexBuf ro rd maxT nearest fuel stack' result
          | _, _ => none

/-- `BVHReference::intersect_nearest` (`max_t = 0.0`, nearest-hit mode),
starting from the root on the stack and the default result. -/
def intersect_nearest (nodes : List BVHNode) (perVertex : List V3Q)
    (indexBuf : List UVec4N) (ro rd : V3Q) (fuel : ℕ) : Option TraceResult :=
  intersectFTB nodes perVertex indexBuf ro rd 0 true fuel [0] default

/-! The concrete two-triangle scene of the grazing-ray counterexample:
triangle 0 spans `x, y ∈ [0,1]` at `z = 2`, triangle 1 spans
`x ∈ [10,11]`, `y ∈ [0,1]` at `z = 2`; the ray starts at the origin
along `+z`, exactly on the `x = 0` and `y = 0` faces of triangle 0's
AABB. -/

def vertsC1 : List V3Q :=
  [⟨0, 0, 2⟩, ⟨1, 0, 2⟩, ⟨0, 1, 2⟩, ⟨10, 0, 2⟩, ⟨11, 0, 2⟩, ⟨10, 1, 2⟩]

def trisC1 : List UVec4N := [⟨0, 1, 2, 0⟩, ⟨3, 4, 5, 0⟩]

/-- Spec-side helper: the state carried by either outcome of a bounce. -/
def StepRes.state : StepRes → TraceState
  | .halt st => st
  | .next st => st

/-! Concrete configurations and oracles used to evaluate the tracer at
explicit inputs. -/

/-- Pure DirectLightSampling, `max_bounces = 3`, Russian roulette off
(`min_bounces = 5`). -/
def cfgC2 : TracingConfig := ⟨5, 3, 2⟩

/-- Bounce 0: diffuse hit on a non-emissive surface; bounce 1: front-face
hit on an emissive surface after a diffuse bounce; bounce 2: miss into a
skybox of radiance 1. -/
def orcC2 : ℕ → BounceData := fun b =>
  if b = 1 then
    { hit := true, backface := false, emissive := ⟨F.fin 5, F.fin 5, F.fin 5⟩,
      bsdf := ⟨F.fin 1, .DiffuseReflection, V3F.one, V3F.one⟩,
      lightContribution := V3F.zero, misContribution := V3F.zero, skybox := V3F.zero }
  else if b = 2 then
    { hit := false, backface := false, emissive := V3F.zero, bsdf := default,
      lightContribution := V3F.zero, misContribution := V3F.zero, skybox := V3F.one }
  else
    { hit := true, backface := false, emissive := V3F.zero,
      bsdf := ⟨F.fin 1, .DiffuseReflection, V3F.one, V3F.one⟩,
      lightContribution := V3F.zero, misContribution := V3F.zero, skybox := V3F.zero }

/-- NEE off, `max_bounces = 2`, Russian roulette off. -/
def cfgC4 : TracingConfig := ⟨5, 2, 0⟩

/-- Bounce 0: a hit whose BSDF sample has pdf 0 (so `spectrum / pdf`
makes the throughput infinite); bounce 1: a miss into a skybox of
radiance 1. -/
def orcC4 : ℕ → BounceData := fun b =>
  if b = 1 then
    { hit := false, backface := false, emissive := V3F.zero, bsdf := default,
      lightContribution := V3F.zero, misContribution := V3F.zero, skybox := V3F.one }
  else
    { hit := true, backface := false, emissive := V3F.zero,
      bsdf := ⟨F.fin 0, .DiffuseReflection, V3F.one, V3F.one⟩,
      lightContribution := V3F.zero, misContribution := V3F.zero, skybox := V3F.zero }

/-- Pure DirectLightSampling, `min_bounces = 0`, `max_bounces = 4`
(4 is the source's default `max_bounces`). -/
def cfgC10 : TracingConfig := ⟨0, 4, 2⟩

/-- Every bounce hits a non-emissive surface, samples the diffuse lobe
with pdf 1 and unit spectrum (so Russian roulette always survives). -/
def orcC10 : ℕ → BounceData := fun _ =>
  { hit := true, backface := false, emissive := V3F.zero,
    bsdf := ⟨F.fin 1, .DiffuseReflection, V3F.one, V3F.one⟩,
    lightContribution := V3F.zero, misContribution := V3F.zero, skybox := V3F.zero }

/-- NEE off, a single bounce, all hits (for the C4 witness). -/
def cfgC4w : TracingConfig := ⟨5, 1, 0⟩

/-- The node list `bvhBuild` produces for the two-triangle scene: an
interior root whose children are single-triangle leaves (pinned by
evaluation; certified inside the C1 theorem). -/
def nodesC1 : List BVHNode :=
  [⟨⟨F.fin 0, F.fin 0, F.fin 2⟩, ⟨F.fin 11, F.fin 1, F.fin 2⟩, 0, 1⟩,
   ⟨⟨F.fin 0, F.fin 0, F.fin 2⟩, ⟨F.fin 1, F.fin 1, F.fin 2⟩, 1, 0⟩,
   ⟨⟨F.fin 10, F.fin 0, F.fin 2⟩, ⟨F.fin 11, F.fin 1, F.fin 2⟩, 1, 1⟩]

/-- Well-formedness of the tree stored in a node list, rooted at slot `i`
and covering the triangle range `[lo, hi)`.  A leaf holds a nonempty
range (`payload = lo`, `triCount = hi - lo ≥ 1`); an interior node has
`triCount = 0` and its children are the contiguous pair `payload` and
`payload + 1` — the storage convention behind `right_node_index() =
left_node_index() + 1` — splitting the range at a proper midpoint.  The
support `S` constrains which slots the tree may occupy. -/
inductive SpansIn (nodes : List BVHNode) (S : ℕ → Prop) : ℕ → ℕ → ℕ → Prop where
  | leaf : ∀ i lo tri, S i → 0 < tri →
      (nodes.getD i default).triCount = tri →
      (nodes.getD i default).payload = lo →
      SpansIn nodes S i lo (lo + tri)
  | node : ∀ i lo m hi l, S i →
      (nodes.getD i default).triCount = 0 →
      (nodes.getD i default).payload = l →
      lo < m → m < hi →
      SpansIn nodes S l lo m →
      SpansIn nodes S (l + 1) m hi →
      SpansIn nodes S i lo hi

/-- A concrete builder state whose node 1 is a one-triangle leaf with a
finite AABB, used to instantiate the keep-single-triangle-leaves fact. -/
def sC5w : BuildState :=
  ⟨[⟨⟨F.fin 0, F.fin 0, F.fin 2⟩, ⟨F.fin 11, F.fin 1, F.fin 2⟩, 0, 1⟩,
    ⟨⟨F.fin 0, F.fin 0, F.fin 2⟩, ⟨F.fin 1, F.fin 1, F.fin 2⟩, 1, 0⟩,
    ⟨⟨F.fin 10, F.fin 0, F.fin 2⟩, ⟨F.fin 11, F.fin 1, F.fin 2⟩, 1, 1⟩],
   [⟨0, 1, 2, 0⟩, ⟨3, 4, 5, 0⟩],
   [⟨mkRat 1 3, mkRat 1 3, 2⟩, ⟨mkRat 31 3, mkRat 1 3, 2⟩], 3⟩

/-! ## Theorems -/

/-! Bridge lemmas: the kernel-computable rational operations agree with
the Mathlib ones. -/

theorem qadd_eq (a b : ℚ) : qadd a b = a + b := by
  unfold qadd
  rw [Rat.mkRat_eq_divInt, Rat.divInt_eq_div]
  have ha : ((a.den : ℚ)) ≠ 0 := by exact_mod_cast a.den_ne_zero
  have hb : ((b.den : ℚ)) ≠ 0 := by exact_mod_cast b.den_ne_zero
  rw [eq_comm]
  conv_lhs => rw [← Rat.num_div_den a, ← Rat.num_div_den b]
  rw [div_add_div _ _ ha hb]
  push_cast
  ring_nf

theorem qneg_eq (a : ℚ) : qneg a = -a := by
  unfold qneg
  rw [Rat.mkRat_eq_divInt, Rat.divInt_eq_div]
  push_cast
  rw [neg_div, Rat.num_div_den]

theorem qsub_eq (a b : ℚ) : qsub a b = a - b := by
  rw [qsub, qadd_eq, qneg_eq, sub_eq_add_neg]

theorem qmul_eq (a b : ℚ) : qmul a b = a * b := by
  unfold qmul
  rw [Rat.mkRat_eq_divInt, Rat.divInt_eq_div]
  rw [eq_comm]
  conv_lhs => rw [← Rat.num_div_den a, ← Rat.num_div_den b]
  rw [div_mul_div_comm]
  push_cast
  ring_nf

theorem qinv_eq (a : ℚ) : qinv a = a⁻¹ := by
  have key : ((a.den : ℚ)) / ((a.num : ℚ)) = a⁻¹ := by
    conv_rhs => rw [← Rat.num_div_den a]
    rw [inv_div]
  unfold qinv
  rcases lt_or_le a.num 0 with h | h
  · rw [if_pos h, Rat.mkRat_eq_divInt, Rat.divInt_eq_div, ← key]
    push_cast
    rw [abs_of_neg (by exact_mod_cast h), neg_div_neg_eq]
  · rw [if_neg (by omega), Rat.mkRat_eq_divInt, Rat.divInt_eq_div, ← key]
    push_cast
    rw [abs_of_nonneg (by exact_mod_cast h)]

theorem qdiv_eq (a b : ℚ) : qdiv a b = a / b := by
  rw [qdiv, qmul_eq, qinv_eq, div_eq_mul_inv]

theorem qabs_eq (a : ℚ) : qabs a = |a| := by
  unfold qabs
  rcases lt_or_le a.num 0 with h | h
  · rw [if_pos h, qneg_eq, eq_comm, abs_of_neg (Rat.num_neg.mp h)]
  · rw [if_neg (by omega), eq_comm, abs_of_nonneg (Rat.num_nonneg.mp h)]

theorem qlt_eq (a b : ℚ) : qlt a b = decide (a < b) := by
  unfold qlt
  rcases lt_or_le a b with h | h
  · simp [h, Rat.lt_def.mp h]
  · simp only [decide_eq_false (not_lt.mpr h), decide_eq_false_iff_not]
    intro hc
    exact absurd (Rat.lt_def.mpr hc) (not_lt.mpr h)

theorem qle_eq (a b : ℚ) : qle a b = decide (a ≤ b) := by
  unfold qle
  rcases le_or_lt a b with h | h
  · simp [Rat.le_def.mp h, h]
  · simp only [decide_eq_false (not_le.mpr h), decide_eq_false_iff_not]
    intro hc
    exact absurd (Rat.le_def.mpr hc) (not_le.mpr h)

/-- C6 (counterexample): at `p1 = p2 = 0` the claim says `power_heuristic`
returns 0, but the computation is `0/0`, which is NaN, not 0. -/
theorem power_heuristic_zero_zero_not_zero :
    power_heuristic (F.fin 0) (F.fin 0) = F.nan ∧ F.nan ≠ F.fin 0 := by
  decide

/-- C6 (amended): for all finite inputs with `p1² + p2² ≠ 0`,
`power_heuristic (p1, p2) = p1² / (p1² + p2²)`; at `p1 = p2 = 0` the
result is NaN (0/0), not 0. -/
theorem power_heuristic_eval :
    (∀ p1 p2 : ℚ, p1 ^ 2 + p2 ^ 2 ≠ 0 →
      power_heuristic (F.fin p1) (F.fin p2) = F.fin (p1 ^ 2 / (p1 ^ 2 + p2 ^ 2))) ∧
    power_heuristic (F.fin 0) (F.fin 0) = F.nan := by
  constructor
  · intro p1 p2 h
    have h' : ¬(p1 * p1 + p2 * p2 = 0) := by
      intro h0
      exact h (by rw [pow_two p1, pow_two p2]; exact h0)
    simp only [power_heuristic, F.mul, F.add, F.div, qmul_eq, qadd_eq]
    rw [if_neg h', qdiv_eq]
    rw [pow_two p1, pow_two p2]
  · decide

/-- Witness for `power_heuristic_eval` at `p1 = p2 = 1`. -/
theorem power_heuristic_eval_witness :
    power_heuristic (F.fin 1) (F.fin 1) = F.fin ((1 : ℚ) ^ 2 / ((1 : ℚ) ^ 2 + (1 : ℚ) ^ 2)) :=
  power_heuristic_eval.1 1 1 (by norm_num)

/-- C7: MIS-weight normalisation — for finite `a`, `b` with `a + b > 0`,
`power_heuristic(a,b) + power_heuristic(b,a) = 1`. -/
theorem power_heuristic_normalised :
    ∀ a b : ℚ, 0 < a + b →
      (power_heuristic (F.fin a) (F.fin b)).add (power_heuristic (F.fin b) (F.fin a)) = F.fin 1 := by
  intro a b h
  have hd : ¬(a * a + b * b = 0) := by
    intro h0
    have ha : a = 0 := by nlinarith [sq_nonneg a, sq_nonneg b, sq_abs a, sq_abs b]
    have hb : b = 0 := by nlinarith [sq_nonneg a, sq_nonneg b]
    rw [ha, hb] at h
    simp at h
  have hd' : ¬(b * b + a * a = 0) := by rw [add_comm]; exact hd
  simp only [power_heuristic, F.mul, F.add, F.div, qmul_eq, qadd_eq]
  rw [if_neg hd, if_neg hd']
  simp only [F.add, qadd_eq, qdiv_eq]
  have heq : a * a / (a * a + b * b) + b * b / (b * b + a * a) = 1 := by
    rw [add_comm (b * b) (a * a), div_add_div_same, div_self hd]
  rw [heq]

/-- Witness for `power_heuristic_normalised` at `a = 1`, `b = 2`. -/
theorem power_heuristic_normalised_witness :
    (power_heuristic (F.fin 1) (F.fin 2)).add (power_heuristic (F.fin 2) (F.fin 1)) = F.fin 1 :=
  power_heuristic_normalised 1 2 (by norm_num)

/-- C8 (counterexample): on `v = (1, NaN, 2)`, `mask_nan` returns the zero
vector, not `(1, 0, 2)` — finite components are NOT left unchanged. -/
theorem mask_nan_counterexample :
    mask_nan ⟨F.fin 1, F.nan, F.fin 2⟩ = V3F.zero ∧
    V3F.zero ≠ ⟨F.fin 1, F.fin 0, F.fin 2⟩ := by
  decide

/-- C8 (amended): `mask_nan` tests the whole vector — it returns `v`
unchanged when every component is finite, and the zero vector (zeroing
the finite components too) as soon as any component is non-finite. -/
theorem mask_nan_whole_vector :
    ∀ v : V3F,
      (v.x.isFinite = true → v.y.isFinite = true → v.z.isFinite = true → mask_nan v = v) ∧
      (¬(v.x.isFinite = true ∧ v.y.isFinite = true ∧ v.z.isFinite = true) →
        mask_nan v = V3F.zero) := by
  intro v
  constructor
  · intro hx hy hz
    simp [mask_nan, V3F.isFinite, hx, hy, hz]
  · intro h
    have hfalse : v.isFinite = false := by
      rcases Bool.eq_false_or_eq_true v.isFinite with hb | hb
      · exfalso
        apply h
        have hb' := hb
        simp only [V3F.isFinite, Bool.and_eq_true] at hb'
        tauto
      · exact hb
    simp [mask_nan, hfalse]

/-- Witness for `mask_nan_whole_vector` at `v = (1, 1, 1)`. -/
theorem mask_nan_whole_vector_witness :
    mask_nan ⟨F.fin 1, F.fin 1, F.fin 1⟩ = ⟨F.fin 1, F.fin 1, F.fin 1⟩ :=
  (mask_nan_whole_vector (⟨F.fin 1, F.fin 1, F.fin 1⟩ : V3F)).1 (by decide) (by decide) (by decide)

/-! Helper lemmas about finiteness. -/

theorem F_add_finite (a b : F) :
    a.isFinite = true → b.isFinite = true → (a.add b).isFinite = true := by
  cases a <;> cases b <;> simp [F.add, F.isFinite]

theorem V3F_add_finite (a b : V3F) :
    a.isFinite = true → b.isFinite = true → (a.add b).isFinite = true := by
  simp only [V3F.isFinite, V3F.add, Bool.and_eq_true]
  rintro ⟨⟨hx, hy⟩, hz⟩ ⟨⟨hx', hy'⟩, hz'⟩
  exact ⟨⟨F_add_finite _ _ hx hx', F_add_finite _ _ hy hy'⟩, F_add_finite _ _ hz hz'⟩

theorem mask_nan_finite (v : V3F) : (mask_nan v).isFinite = true := by
  unfold mask_nan
  split
  · assumption
  · decide

theorem materialTail_radiance_eq (cfg : TracingConfig) (sample : BSDFSample)
    (bounce : ℕ) (st₂ : TraceState) (r : StepRes) :
    materialTail cfg sample bounce st₂ = some r →
    r.state.radiance = st₂.radiance := by
  intro h
  unfold materialTail at h
  dsimp only at h
  split at h
  · split at h
    · exact absurd h (by simp)
    · split at h
      · cases h
        rfl
      · cases h
        rfl
  · cases h
    rfl

theorem materialPath_radiance_finite (cfg : TracingConfig) (sentinel : Bool)
    (orc : BounceData) (bounce : ℕ) (st : TraceState) (r : StepRes) :
    st.radiance.isFinite = true →
    materialPath cfg sentinel orc bounce st = some r →
    r.state.radiance.isFinite = true := by
  intro hfin h
  have hmadd : ∀ w : V3F, (st.radiance.add (mask_nan w)).isFinite = true :=
    fun w => V3F_add_finite _ _ hfin (mask_nan_finite w)
  unfold materialPath at h
  cases hg3 : st.rng.gen_r3 with
  | none => rw [hg3] at h; exact absurd h (by simp)
  | some p =>
    rw [hg3] at h
    simp only [] at h
    split at h
    · split at h
      · rw [materialTail_radiance_eq _ _ _ _ _ h]
        exact hmadd _
      · split at h
        · exact absurd h (by simp)
        · split at h
          · exact absurd h (by simp)
          · rw [materialTail_radiance_eq _ _ _ _ _ h]
            exact hmadd _
    · rw [materialTail_radiance_eq _ _ _ _ _ h]
      exact hfin

theorem traceBounce_radiance_finite (cfg : TracingConfig) (sentinel : Bool)
    (orc : BounceData) (bounce : ℕ) (st : TraceState) (r : StepRes) :
    orc.hit = true →
    st.radiance.isFinite = true →
    traceBounce cfg sentinel orc bounce st = some r →
    r.state.radiance.isFinite = true := by
  intro hhit hfin h
  unfold traceBounce at h
  rw [hhit] at h
  simp only [reduceCtorEq, if_false] at h
  split at h
  · split at h
    · cases h
      exact hfin
    · cases h
      exact V3F_add_finite _ _ hfin (mask_nan_finite _)
    · cases h
      exact V3F_add_finite _ _ hfin (mask_nan_finite _)
    · exact materialPath_radiance_finite cfg sentinel orc bounce st r hfin h
  · exact materialPath_radiance_finite cfg sentinel orc bounce st r hfin h

theorem traceLoop_radiance_finite (cfg : TracingConfig) (sentinel : Bool)
    (orc : ℕ → BounceData) :
    ∀ (remaining bounce : ℕ) (st res : TraceState),
      (∀ i, (orc i).hit = true) →
      st.radiance.isFinite = true →
      traceLoop cfg sentinel orc bounce remaining st = some res →
      res.radiance.isFinite = true := by
  intro remaining
  induction remaining with
  | zero =>
    intro bounce st res _ hfin h
    unfold traceLoop at h
    cases h
    exact hfin
  | succ n ih =>
    intro bounce st res hhit hfin h
    unfold traceLoop at h
    simp only [] at h
    cases hb : traceBounce cfg sentinel (orc bounce) bounce
        { st with bouncesRun := st.bouncesRun + 1 } with
    | none => rw [hb] at h; exact absurd h (by simp)
    | some sr =>
      rw [hb] at h
      have hfin' : ({ st with bouncesRun := st.bouncesRun + 1 } :
          TraceState).radiance.isFinite = true := hfin
      have hsr : sr.state.radiance.isFinite = true :=
        traceBounce_radiance_finite cfg sentinel (orc bounce) bounce _ sr
          (hhit bounce) hfin' hb
      cases sr with
      | halt st' =>
        cases h
        exact hsr
      | next st' =>
        exact ih (bounce + 1) st' res hhit hsr h

/-- C9 (failing input): the low-discrepancy generator CAN return exactly
`1.0`: at dimension 1 (the first `gen_r1` draw of a fresh state) with
`state.x = 724387743`, `state.y = 0`, the u32 product is `2^32 - 4`, whose
`as f32` conversion rounds up to `2^32`, giving `lds = 1.0`.  `pick_light`
then computes bin index `(1.0 * 1 as f32) as usize = 1` on a 1-entry
table — an out-of-bounds index (a panic in Rust, modelled as `none`). -/
theorem pick_light_index_out_of_bounds :
    lds 724387743 1 0 = some 1 ∧
    pick_light [⟨0, 0, 0, 0, 0, 0, 0⟩] ⟨724387743, 0, 0⟩ = none := by
  decide

/-! Helper lemmas for the light-pick table. -/

theorem foldl_qadd_sum {α : Type} (f : α → ℚ) (l : List α) (init : ℚ) :
    l.foldl (fun acc x => qadd acc (f x)) init = init + (l.map f).sum := by
  induction l generalizing init with
  | nil => simp
  | cons x xs ih =>
    rw [List.foldl_cons, ih, qadd_eq, List.map_cons, List.sum_cons]
    ring

theorem binsMass_eq_sum (bins : List TriangleBin) (j : ℕ) :
    binsMass bins j = (bins.map (fMass j)).sum := by
  unfold binsMass
  rw [foldl_qadd_sum, zero_add]

theorem binsTotal_eq_sum (bins : List TriangleBin) :
    binsTotal bins = (bins.map fun b => b.probability_a + b.probability_b).sum := by
  unfold binsTotal
  have : (fun (acc : ℚ) (b : TriangleBin) => qadd acc (qadd b.probability_a b.probability_b)) =
      fun acc b => qadd acc ((fun c => c.probability_a + c.probability_b) b) := by
    funext acc b
    rw [qadd_eq b.probability_a]
  rw [this, foldl_qadd_sum, zero_add]

theorem sum_set_eq (L : List ℚ) (n : ℕ) (a : ℚ) (h : n < L.length) :
    (L.set n a).sum = L.sum - L.getD n 0 + a := by
  induction L generalizing n with
  | nil => simp at h
  | cons x xs ih =>
    cases n with
    | zero => simp [List.set]; ring
    | succ m =>
      simp only [List.set, List.sum_cons, List.getD_cons_succ]
      rw [ih m (by simpa using h)]
      ring

theorem binsMass_set (l : List TriangleBin) (n : ℕ) (b' : TriangleBin) (j : ℕ)
    (h : n < l.length) :
    binsMass (l.set n b') j =
      binsMass l j - fMass j (l.getD n default) + fMass j b' := by
  rw [binsMass_eq_sum, binsMass_eq_sum, List.map_set, sum_set_eq _ _ _ (by simpa using h)]
  congr 2
  rw [List.getD_eq_getElem?_getD, List.getD_eq_getElem?_getD, List.getElem?_map]
  rw [List.getElem?_eq_getElem h]
  simp

theorem insertAsc_perm (x : TriangleBin) (l : List TriangleBin) :
    (insertAsc x l).Perm (x :: l) := by
  induction l with
  | nil => exact List.Perm.refl _
  | cons y ys ih =>
    unfold insertAsc
    split
    · exact List.Perm.refl _
    · exact (ih.cons y).trans (List.Perm.swap x y ys)

theorem foldl_insertAsc_perm (l acc : List TriangleBin) :
    (l.foldl (fun acc x => insertAsc x acc) acc).Perm (acc ++ l) := by
  induction l generalizing acc with
  | nil => simp
  | cons x xs ih =>
    simp only [List.foldl_cons]
    refine (ih (insertAsc x acc)).trans ?_
    have h1 : (insertAsc x acc ++ xs).Perm ((x :: acc) ++ xs) :=
      (insertAsc_perm x acc).append_right xs
    refine h1.trans ?_
    exact List.perm_middle.symm

theorem sortBins_perm (l : List TriangleBin) : (sortBins l).Perm l := by
  unfold sortBins
  simpa using foldl_insertAsc_perm l []

theorem binsMass_perm {l₁ l₂ : List TriangleBin} (h : l₁.Perm l₂) (j : ℕ) :
    binsMass l₁ j = binsMass l₂ j := by
  rw [binsMass_eq_sum, binsMass_eq_sum]
  exact (h.map (fMass j)).sum_eq

theorem enumFrom_select_sum (l : List ℚ) (j k : ℕ) :
    ((l.enumFrom k).map (fun x => if x.1 = j then x.2 else 0)).sum =
      if k ≤ j then l.getD (j - k) 0 else 0 := by
  induction l generalizing k with
  | nil => simp
  | cons p tl ih =>
    simp only [List.enumFrom, List.map_cons, List.sum_cons, ih]
    rcases Nat.lt_trichotomy k j with hlt | rfl | hgt
    · rw [if_neg (by omega), if_pos (by omega), if_pos (by omega), zero_add]
      have : j - k = (j - (k + 1)) + 1 := by omega
      rw [this, List.getD_cons_succ]
    · rw [if_pos rfl, if_neg (by omega), if_pos (by omega), Nat.sub_self, List.getD_cons_zero,
        add_zero]
    · rw [if_neg (by omega), if_neg (by omega), if_neg (by omega), zero_add]

theorem initial_mass_core (l : List (ℕ × ℚ)) (j : ℕ) :
    (((l.map (fun x => TriangleBin.mk x.1 x.2 0 0)).filter
        (fun b => !(b.probability_a == 0))).map (fMass j)).sum =
      (l.map (fun x => if x.1 = j then x.2 else 0)).sum := by
  induction l with
  | nil => simp
  | cons x xs ih =>
    by_cases hz : x.2 = 0
    · simp only [List.map_cons, List.filter_cons, hz, List.sum_cons]
      simp [ih, hz]
    · simp only [List.map_cons, List.filter_cons]
      rw [if_pos (by simpa using hz)]
      simp only [List.map_cons, List.sum_cons, ih]
      congr 1
      unfold fMass
      rw [qadd_eq]
      simp

theorem initialBins_mass (vertices : List V3Q) (indices : List UVec4N) (mask : List Bool)
    (materials : List MaterialData) (j : ℕ) :
    binsMass (initialBins vertices indices mask materials) j =
      (lightProbs vertices indices mask materials).getD j 0 := by
  rw [binsMass_eq_sum]
  unfold initialBins
  rw [initial_mass_core]
  have henum : (lightProbs vertices indices mask materials).enum =
      (lightProbs vertices indices mask materials).enumFrom 0 := rfl
  rw [henum, enumFrom_select_sum]
  simp

theorem rhGo_length (avg : ℚ) :
    ∀ (count i : ℕ) (bins bins' : List TriangleBin) (mp : ℕ),
      rhGo avg count i bins mp = some bins' → bins'.length = bins.length := by
  intro count
  induction count with
  | zero =>
    intro i bins bins' mp h
    unfold rhGo at h
    cases h
    rfl
  | succ n ih =>
    intro i bins bins' mp h
    unfold rhGo at h
    split at h
    · exact absurd h (by simp)
    · simp only [] at h
      split at h
      · cases h
        rfl
      · split at h
        · exact absurd h (by simp)
        · split at h
          · exact absurd h (by simp)
          · split at h
            · split at h
              · exact absurd h (by simp)
              · rw [ih _ _ _ _ h]
                simp
            · rw [ih _ _ _ _ h]
              simp

theorem fMass_pa_sub (j : ℕ) (b : TriangleBin) (d : ℚ) :
    fMass j { b with probability_a := qsub b.probability_a d } =
      fMass j b - (if b.index_a = j then d else 0) := by
  unfold fMass
  rw [qadd_eq, qadd_eq, qsub_eq]
  by_cases h : b.index_a = j <;> simp [h] <;> ring

theorem fMass_set_b (j : ℕ) (b : TriangleBin) (nb : ℕ) (np : ℚ)
    (h0 : b.probability_b = 0) :
    fMass j { b with index_b := nb, probability_b := np } =
      fMass j b + (if nb = j then np else 0) := by
  unfold fMass
  rw [qadd_eq, qadd_eq, h0]
  simp

theorem rhGo_mass (avg : ℚ) :
    ∀ (count i : ℕ) (bins bins' : List TriangleBin) (mp : ℕ),
      rhGo avg count i bins mp = some bins' →
      (∀ k b, i ≤ k → bins[k]? = some b → b.probability_b = 0) →
      ∀ j, binsMass bins' j = binsMass bins j := by
  intro count
  induction count with
  | zero =>
    intro i bins bins' mp h _ j
    unfold rhGo at h
    cases h
    rfl
  | succ n ih =>
    intro i bins bins' mp h hinv j
    unfold rhGo at h
    cases hgi : bins[i]? with
    | none => rw [hgi] at h; exact absurd h (by simp)
    | some bi =>
      rw [hgi] at h
      simp only [] at h
      split at h
      · cases h
        rfl
      · cases hgmp : bins[mp]? with
        | none => rw [hgmp] at h; exact absurd h (by simp)
        | some bmp =>
          rw [hgmp] at h
          simp only [] at h
          obtain ⟨hi, hgeti⟩ := List.getElem?_eq_some.mp hgi
          obtain ⟨hmp, hgetmp⟩ := List.getElem?_eq_some.mp hgmp
          have hpbi : bi.probability_b = 0 := hinv i bi le_rfl hgi
          cases hgmp₁ : (bins.set i
              { bi with index_b := bmp.index_a,
                        probability_b := qsub avg bi.probability_a })[mp]? with
          | none => rw [hgmp₁] at h; exact absurd h (by simp)
          | some bmp₁ =>
            rw [hgmp₁] at h
            simp only [] at h
            have hmp₁lt : mp < (bins.set i
                { bi with index_b := bmp.index_a,
                          probability_b := qsub avg bi.probability_a }).length := by
              rw [List.length_set]; exact hmp
            have hidx : bmp₁.index_a = bmp.index_a := by
              rcases eq_or_ne mp i with rfl | hne
              · have hset : (bins.set mp
                    { bi with index_b := bmp.index_a,
                              probability_b := qsub avg bi.probability_a })[mp]? =
                    some { bi with index_b := bmp.index_a,
                                   probability_b := qsub avg bi.probability_a } :=
                  List.getElem?_set_self hmp
                rw [hset] at hgmp₁
                cases hgmp₁
                have hbmpbi : bmp = bi := by
                  rw [hgi] at hgmp
                  cases hgmp
                  rfl
                rw [hbmpbi]
              · have hset : (bins.set i
                    { bi with index_b := bmp.index_a,
                              probability_b := qsub avg bi.probability_a })[mp]? =
                    bins[mp]? := List.getElem?_set_ne (fun hh => hne hh.symm)
                rw [hset, hgmp] at hgmp₁
                cases hgmp₁
                rfl
            have hgd : bins.getD i default = bi := by
              rw [List.getD_eq_getElem?_getD, hgi]
              rfl
            have hm₁ : binsMass (bins.set i
                { bi with index_b := bmp.index_a,
                          probability_b := qsub avg bi.probability_a }) j =
                binsMass bins j + (if bmp.index_a = j then qsub avg bi.probability_a else 0) := by
              rw [binsMass_set _ _ _ _ hi, fMass_set_b j bi _ _ hpbi, hgd]
              ring
            have hgd₁ : (bins.set i
                { bi with index_b := bmp.index_a,
                          probability_b := qsub avg bi.probability_a }).getD mp default =
                bmp₁ := by
              rw [List.getD_eq_getElem?_getD, hgmp₁]
              rfl
            have hm₂ : binsMass ((bins.set i
                { bi with index_b := bmp.index_a,
                          probability_b := qsub avg bi.probability_a }).set mp
                  { bmp₁ with probability_a := qsub bmp₁.probability_a (qsub avg bi.probability_a) }) j = binsMass bins j := by
              rw [binsMass_set _ _ _ _ hmp₁lt, hgd₁, fMass_pa_sub, hm₁, hidx]
              ring
            have hinv₂ : ∀ k b, i + 1 ≤ k →
                ((bins.set i
                  { bi with index_b := bmp.index_a,
                            probability_b := qsub avg bi.probability_a }).set mp
                    { bmp₁ with probability_a := qsub bmp₁.probability_a (qsub avg bi.probability_a) })[k]? = some b →
                b.probability_b = 0 := by
              intro k b hk hgk
              rcases eq_or_ne k mp with rfl | hkmp
              · rw [List.getElem?_set_self hmp₁lt] at hgk
                cases hgk
                have hne : i ≠ k := by omega
                have hset : (bins.set i
                    { bi with index_b := bmp.index_a,
                              probability_b := qsub avg bi.probability_a })[k]? =
                    bins[k]? := List.getElem?_set_ne hne
                rw [hset, hgmp] at hgmp₁
                cases hgmp₁
                exact hinv k bmp (by omega) hgmp
              · have h2 : ((bins.set i
                    { bi with index_b := bmp.index_a,
                              probability_b := qsub avg bi.probability_a }).set mp
                      { bmp₁ with probability_a := qsub bmp₁.probability_a (qsub avg bi.probability_a) })[k]? =
                    (bins.set i
                      { bi with index_b := bmp.index_a,
                                probability_b := qsub avg bi.probability_a })[k]? :=
                  List.getElem?_set_ne (fun hh => hkmp hh.symm)
                have h1 : (bins.set i
                    { bi with index_b := bmp.index_a,
                              probability_b := qsub avg bi.probability_a })[k]? =
                    bins[k]? := List.getElem?_set_ne (by omega)
                rw [h2, h1] at hgk
                exact hinv k b (by omega) hgk
            split at h
            · cases mp with
              | zero => exact absurd h (by simp)
              | succ mp' =>
                rw [ih (i + 1) _ bins' mp' h hinv₂ j]
                exact hm₂
            · rw [ih (i + 1) _ bins' mp h hinv₂ j]
              exact hm₂

theorem foldl_qadd_sum' (l : List ℚ) (init : ℚ) : l.foldl qadd init = init + l.sum := by
  induction l generalizing init with
  | nil => simp
  | cons x xs ih =>
    rw [List.foldl_cons, ih, qadd_eq, List.sum_cons]
    ring

theorem sum_map_div_q {α : Type} (l : List α) (f : α → ℚ) (c : ℚ) :
    (l.map fun x => f x / c).sum = (l.map f).sum / c := by
  induction l with
  | nil => simp
  | cons x xs ih => simp [ih, add_div]

theorem sum_map_of_const {α : Type} (l : List α) (f : α → ℚ) (c : ℚ)
    (h : ∀ x ∈ l, f x = c) : (l.map f).sum = l.length * c := by
  induction l with
  | nil => simp
  | cons x xs ih =>
    simp only [List.map_cons, List.sum_cons, List.length_cons]
    rw [h x (by simp), ih (fun y hy => h y (by simp [hy]))]
    push_cast
    ring

theorem sum_map_div_self (l : List ℚ) (c : ℚ) :
    (l.map fun p => p / c).sum = l.sum / c := by
  induction l with
  | nil => simp
  | cons x xs ih => simp [ih, add_div]

theorem totalPower_eq_sum (vertices : List V3Q) (indices : List UVec4N) (mask : List Bool)
    (materials : List MaterialData) :
    totalPower vertices indices mask materials =
      (lightPowers vertices indices mask materials).sum := by
  unfold totalPower
  rw [foldl_qadd_sum', zero_add]

theorem lightProbs_sum (vertices : List V3Q) (indices : List UVec4N) (mask : List Bool)
    (materials : List MaterialData)
    (h : totalPower vertices indices mask materials ≠ 0) :
    (lightProbs vertices indices mask materials).sum = 1 := by
  unfold lightProbs
  rw [List.map_congr_left
    (fun p _ => qdiv_eq p (totalPower vertices indices mask materials)),
    sum_map_div_self, ← totalPower_eq_sum]
  exact div_self h

theorem initialBins_pb (vertices : List V3Q) (indices : List UVec4N) (mask : List Bool)
    (materials : List MaterialData) (b : TriangleBin)
    (hb : b ∈ initialBins vertices indices mask materials) : b.probability_b = 0 := by
  unfold initialBins at hb
  obtain ⟨hmem, _⟩ := List.mem_filter.mp hb
  obtain ⟨x, _, hx⟩ := List.mem_map.mp hmem
  rw [← hx]

/-- C3 (counterexample): with four lights of pick probabilities
`(1/20, 6/20, 6/20, 7/20)` the robin-hood pass breaks early at `i = 1`,
leaving bin 3 with total mass `3/20 ≠ 1/4`; the sampling procedure then
returns triangle 3 with probability `9/20`, not its power share `7/20`
(triangle 1 likewise gets `1/4`, not `6/20`). -/
theorem light_pick_distribution_counterexample :
    build_light_pick_table vertsC3 trisC3 maskC3 matsC3 = some tableC3 ∧
    lightProbs vertsC3 trisC3 maskC3 matsC3 =
      [mkRat 1 20, mkRat 3 10, mkRat 3 10, mkRat 7 20] ∧
    inducedProb tableC3 3 = mkRat 9 20 ∧
    mkRat 9 20 ≠ mkRat 7 20 := by
  decide

/-- C3 (amended): the robin-hood construction conserves mass — under the
stated hypotheses the bins' stored masses sum to 1 — and the sampling
procedure induces exactly the power-proportional distribution WHEN the
pass terminates with every bin holding total mass `1/num_bins` and every
mask-selected triangle has nonzero probability (`num_bins = total_tris`);
the counterexample shows the distribution claim fails without these
conditions. -/
theorem light_pick_mass_and_distribution :
    ∀ (vertices : List V3Q) (indices : List UVec4N) (mask : List Bool)
      (materials : List MaterialData) (bins : List TriangleBin)
      (table : List LightPickEntry),
      totalPower vertices indices mask materials ≠ 0 →
      robinBins vertices indices mask materials = some bins →
      build_light_pick_table vertices indices mask materials = some table →
      (∀ b ∈ bins, qadd b.probability_a b.probability_b =
        averageProb vertices indices mask materials) →
      bins.length = totalTris indices mask →
      binsTotal bins = 1 ∧
      ∀ j, inducedProb table j = (lightProbs vertices indices mask materials).getD j 0 := by
  intro V I M mats bins table hP hrb hbuild havg hlen
  have hrb0 := hrb
  unfold robinBins at hrb
  simp only [] at hrb
  cases hsb : (sortedBins V I M mats).length with
  | zero => rw [hsb] at hrb; exact absurd hrb (by simp)
  | succ nB =>
    rw [hsb] at hrb
    simp only [] at hrb
    have hpb : ∀ k b, 0 ≤ k → (sortedBins V I M mats)[k]? = some b →
        b.probability_b = 0 := by
      intro k b _ hk
      have hmem : b ∈ sortedBins V I M mats := List.getElem?_mem hk
      have hmem' : b ∈ initialBins V I M mats :=
        (sortBins_perm (initialBins V I M mats)).mem_iff.mp hmem
      exact initialBins_pb V I M mats b hmem'
    have hmass : ∀ j, binsMass bins j = (lightProbs V I M mats).getD j 0 := by
      intro j
      rw [rhGo_mass (averageProb V I M mats) (nB + 1) 0 (sortedBins V I M mats) bins nB
        hrb hpb j]
      unfold sortedBins
      rw [binsMass_perm (sortBins_perm (initialBins V I M mats)) j]
      exact initialBins_mass V I M mats j
    have hlenB : bins.length = nB + 1 := by
      rw [rhGo_length (averageProb V I M mats) (nB + 1) 0 (sortedBins V I M mats) bins nB hrb]
      exact hsb
    have htt : totalTris I M = nB + 1 := by
      rw [← hlen, hlenB]
    have httQ : ((totalTris I M : ℕ) : ℚ) ≠ 0 := by
      rw [htt]
      exact_mod_cast Nat.succ_ne_zero nB
    have havgEq : averageProb V I M mats = 1 / ((totalTris I M : ℕ) : ℚ) := by
      unfold averageProb
      rw [foldl_qadd_sum', zero_add, lightProbs_sum V I M mats hP, qdiv_eq]
    have havgNe : averageProb V I M mats ≠ 0 := by
      rw [havgEq]
      exact one_div_ne_zero httQ
    have hTotal : binsTotal bins = 1 := by
      rw [binsTotal_eq_sum,
        sum_map_of_const bins _ (averageProb V I M mats)
          (fun b hb => by rw [← qadd_eq]; exact havg b hb),
        hlenB, havgEq, htt, mul_one_div]
      exact div_self (by exact_mod_cast Nat.succ_ne_zero nB)
    refine ⟨hTotal, ?_⟩
    intro j
    have httNe : ¬(totalTris I M = 0) := by omega
    unfold build_light_pick_table at hbuild
    rw [if_neg httNe, hrb0] at hbuild
    simp only [] at hbuild
    cases hbuild
    unfold inducedProb
    rw [foldl_qadd_sum, zero_add, qdiv_eq, List.map_map, List.length_map]
    have hcong : ∀ x ∈ bins,
        ((fun e : LightPickEntry =>
            qadd (if e.triangle_index_a = j then e.ratio else 0)
              (if e.triangle_index_b = j then qsub 1 e.ratio else 0)) ∘
          fun x : TriangleBin =>
            { triangle_index_a := x.index_a
              triangle_area_a := (lightAreas V I M).getD x.index_a 0
              triangle_pick_pdf_a := (lightProbs V I M mats).getD x.index_a 0
              triangle_index_b := x.index_b
              triangle_area_b := (lightAreas V I M).getD x.index_b 0
              triangle_pick_pdf_b := (lightProbs V I M mats).getD x.index_b 0
              ratio := qdiv x.probability_a (qadd x.probability_a x.probability_b) }) x =
        fMass j x / averageProb V I M mats := by
      intro x hx
      have hsum : x.probability_a + x.probability_b = averageProb V I M mats := by
        rw [← qadd_eq]
        exact havg x hx
      simp only [Function.comp]
      rw [qadd_eq, qsub_eq, qdiv_eq, qadd_eq, hsum]
      unfold fMass
      rw [qadd_eq]
      have hpb' : x.probability_b =
          averageProb V I M mats - x.probability_a := by
        rw [← hsum]; ring
      by_cases h1 : x.index_a = j <;> by_cases h2 : x.index_b = j <;>
        simp only [h1, h2, if_pos, if_neg, if_true, if_false] <;>
        field_simp <;> rw [hpb'] <;> ring
    rw [List.map_congr_left hcong, sum_map_div_q bins (fMass j) (averageProb V I M mats),
      ← binsMass_eq_sum, hmass j, hlenB, havgEq, htt]
    have hc : ((nB + 1 : ℕ) : ℚ) ≠ 0 := by exact_mod_cast Nat.succ_ne_zero nB
    field_simp

/-- Witness for `light_pick_mass_and_distribution`: the 2-light scene in
which the robin-hood pass ends Vose-complete. -/
theorem light_pick_mass_and_distribution_witness :
    binsTotal binsC3w = 1 ∧
    inducedProb tableC3w 1 = (lightProbs vertsC3w trisC3w maskC3w matsC3w).getD 1 0 :=
  ⟨(light_pick_mass_and_distribution vertsC3w trisC3w maskC3w matsC3w binsC3w tableC3w
      (by decide) (by decide) (by decide) (by decide) (by decide)).1,
   (light_pick_mass_and_distribution vertsC3w trisC3w maskC3w matsC3w binsC3w tableC3w
      (by decide) (by decide) (by decide) (by decide) (by decide)).2 1⟩

/-- C2 (counterexample): in pure DirectLightSampling mode (`cfgC2`), a
front-face emissive hit at bounce 1 after a diffuse bounce does NOT break
the loop: the run executes all 3 bounces (`bouncesRun = 3`) and picks up
the bounce-2 skybox radiance of 1 — had the loop broken at bounce 1 as
the claim states, only 2 iterations would run and the radiance would be
0. -/
theorem dls_emissive_front_hit_does_not_break :
    main_material cfgC2 true orcC2 ⟨0, 0, 0⟩ =
      some ⟨V3F.one, V3F.one, LobeType.DiffuseReflection, ⟨0, 0, 8⟩, 3⟩ := by
  decide

/-- C2 (amended): in pure DirectLightSampling mode, when a bounce after
the first hits the front face of an emissive triangle and the previous
bounce sampled the diffuse lobe, no emissive term is added and the loop
does NOT break: the hit is handed to the regular material path exactly as
a non-emissive hit would be. -/
theorem dls_emissive_continues :
    ∀ (cfg : TracingConfig) (sentinel : Bool) (orc : BounceData) (bounce : ℕ)
      (st : TraceState),
      NextEventEstimation.from_u32 cfg.nee = NextEventEstimation.DirectLightSampling →
      bounce ≠ 0 →
      orc.hit = true →
      orc.backface = false →
      orc.emissive.feq V3F.zero = false →
      st.lastLobe = LobeType.DiffuseReflection →
      traceBounce cfg sentinel orc bounce st = materialPath cfg sentinel orc bounce st := by
  intro cfg sentinel orc bounce st hmode hb hhit hback hfeq hlobe
  unfold traceBounce
  rw [hhit, hfeq]
  have hbeq : (bounce == 0) = false := by
    simp only [beq_eq_false_iff_ne, ne_eq]
    exact hb
  simp only [reduceCtorEq, if_false, hmode, emissiveDecision, hback, hlobe,
    NextEventEstimation.uses_nee, NextEventEstimation.uses_mis, hbeq,
    Bool.not_true, Bool.false_or, Bool.or_self, Bool.false_and, beq_self_eq_true,
    Bool.not_false, Bool.or_false, if_false, Bool.and_self]
  rfl

/-- Witness for `dls_emissive_continues` at the bounce-1 situation of
`orcC2`. -/
theorem dls_emissive_continues_witness :
    traceBounce cfgC2 true (orcC2 1) 1
        ⟨V3F.zero, V3F.one, LobeType.DiffuseReflection, ⟨0, 0, 5⟩, 2⟩ =
      materialPath cfgC2 true (orcC2 1) 1
        ⟨V3F.zero, V3F.one, LobeType.DiffuseReflection, ⟨0, 0, 5⟩, 2⟩ :=
  dls_emissive_continues cfgC2 true (orcC2 1) 1
    ⟨V3F.zero, V3F.one, LobeType.DiffuseReflection, ⟨0, 0, 5⟩, 2⟩
    (by decide) (by decide) (by decide) (by decide) (by decide) (by decide)

/-- C4 (counterexample): the skybox contribution of a miss is NOT masked:
after a bounce whose BSDF sample has pdf 0 the throughput is infinite,
and the miss at bounce 1 adds `throughput * skybox = (inf, inf, inf)` to
the radiance unmasked, so the per-sample value added to the accumulator
is non-finite. -/
theorem unmasked_skybox_contribution_nonfinite :
    main_material cfgC4 true orcC4 ⟨0, 0, 0⟩ =
      some ⟨⟨F.inf, F.inf, F.inf⟩, ⟨F.inf, F.inf, F.inf⟩,
            LobeType.DiffuseReflection, ⟨0, 0, 5⟩, 2⟩ ∧
    (⟨F.inf, F.inf, F.inf⟩ : V3F).isFinite = false := by
  decide

/-- C4 (amended): every per-sample contribution other than the skybox
miss contribution is masked with `mask_nan` before accumulation, so any
sample whose path never takes the miss branch accumulates a finite
radiance; the skybox contribution itself is added unmasked and can be
non-finite. -/
theorem per_sample_radiance_finite_without_miss :
    ∀ (cfg : TracingConfig) (sentinel : Bool) (orc : ℕ → BounceData)
      (rng₀ : RngState) (res : TraceState),
      (∀ i, (orc i).hit = true) →
      main_material cfg sentinel orc rng₀ = some res →
      res.radiance.isFinite = true := by
  intro cfg sentinel orc rng₀ res hhit h
  unfold main_material at h
  cases hg : rng₀.gen_r2 with
  | none => rw [hg] at h; exact absurd h (by simp)
  | some p =>
    obtain ⟨aa, rng₁⟩ := p
    rw [hg] at h
    exact traceLoop_radiance_finite cfg sentinel orc cfg.max_bounces 0
      { radiance := V3F.zero, throughput := V3F.one,
        lastLobe := LobeType.DiffuseReflection, rng := rng₁, bouncesRun := 0 }
      res hhit rfl h

/-- Witness for `per_sample_radiance_finite_without_miss`: a 1-bounce
all-hit run. -/
theorem per_sample_radiance_finite_without_miss_witness :
    (⟨V3F.zero, V3F.one, LobeType.DiffuseReflection, ⟨0, 0, 5⟩, 1⟩ :
      TraceState).radiance.isFinite = true :=
  per_sample_radiance_finite_without_miss cfgC4w true orcC10 ⟨0, 0, 0⟩
    ⟨V3F.zero, V3F.one, LobeType.DiffuseReflection, ⟨0, 0, 5⟩, 1⟩
    (fun _ => rfl) (by decide)

/-- C10 (failing input): with `min_bounces = 0`, `max_bounces = 4` (the
source default), DirectLightSampling NEE, lights present, and a path of
four consecutive diffuse bounces that survive Russian roulette, the
fourth bounce's light-sampling draw advances the RNG dimension counter to
32, and the `LDS_PRIMES[32]` lookup is out of bounds (a panic, modelled
as `none`). -/
theorem rng_dimension_out_of_bounds :
    main_material cfgC10 false orcC10 ⟨0, 0, 0⟩ = none := by
  decide

set_option maxRecDepth 10000 in
/-- C1 (failing input): the claim says `intersect_nearest` through the
BVH finds the same nearest hit as the brute-force `intersect_slow_as_shit`
for every ray.  For the two-triangle scene `vertsC1`/`trisC1` and the ray
from the origin along `+z` — which lies exactly in the `x = 0` and
`y = 0` faces of the first leaf's AABB — the brute force hits triangle 0
at `t = 2` (backface), but the BVH build succeeds (producing `nodesC1`
with the same index order) and `intersect_nearest` returns the default
result with `hit = false`: the slab test computes `(0 - 0) / 0 = NaN`
for the grazing axes, Rust `min`/`max` discard the NaN, the entry time
degenerates to `+inf`, and both children are pruned. -/
theorem bvh_traversal_misses_intersected_triangle :
    (intersect_slow_as_shit vertsC1 trisC1 ⟨0, 0, 0⟩ ⟨0, 0, 1⟩).hit = true ∧
    (intersect_slow_as_shit vertsC1 trisC1 ⟨0, 0, 0⟩ ⟨0, 0, 1⟩).t = 2 ∧
    (intersect_slow_as_shit vertsC1 trisC1 ⟨0, 0, 0⟩ ⟨0, 0, 1⟩).backface = true ∧
    bvhBuild vertsC1 trisC1 = some (nodesC1, trisC1) ∧
    intersect_nearest nodesC1 vertsC1 trisC1 ⟨0, 0, 0⟩ ⟨0, 0, 1⟩ 100 =
      some (default : TraceResult) ∧
    (default : TraceResult).hit = false := by decide

lemma getD_set_ne {α} (l : List α) (i k : ℕ) (a d : α) (h : i ≠ k) :
    (l.set i a).getD k d = l.getD k d := by
  simp [List.getD_eq_getElem?_getD, List.getElem?_set_ne h]

lemma getD_set_self {α} (l : List α) (i : ℕ) (a d : α) (h : i < l.length) :
    (l.set i a).getD i d = a := by
  simp [List.getD_eq_getElem?_getD, List.getElem?_set_self, h]

lemma getD_take {α} (l : List α) (n k : ℕ) (d : α) (h : k < n) :
    (l.take n).getD k d = l.getD k d := by
  simp [List.getD_eq_getElem?_getD, List.getElem?_take, h]

lemma updateNodeAabb_nodeCount (V : List V3Q) (s : BuildState) (j : ℕ) :
    (updateNodeAabb V s j).nodeCount = s.nodeCount := rfl

lemma updateNodeAabb_indices (V : List V3Q) (s : BuildState) (j : ℕ) :
    (updateNodeAabb V s j).indices = s.indices := rfl

lemma updateNodeAabb_centroids (V : List V3Q) (s : BuildState) (j : ℕ) :
    (updateNodeAabb V s j).centroids = s.centroids := rfl

lemma updateNodeAabb_length (V : List V3Q) (s : BuildState) (j : ℕ) :
    (updateNodeAabb V s j).nodes.length = s.nodes.length := by
  simp [updateNodeAabb]

lemma updateNodeAabb_getD_ne (V : List V3Q) (s : BuildState) (j k : ℕ) (h : k ≠ j) :
    (updateNodeAabb V s j).nodes.getD k default = s.nodes.getD k default := by
  simp only [updateNodeAabb]
  exact getD_set_ne _ _ _ _ _ (Ne.symm h)

lemma updateNodeAabb_triCount (V : List V3Q) (s : BuildState) (j k : ℕ) :
    ((updateNodeAabb V s j).nodes.getD k default).triCount =
      ((s.nodes.getD k default)).triCount := by
  by_cases hk : k = j
  · subst hk
    by_cases hj : k < s.nodes.length
    · simp only [updateNodeAabb]
      rw [getD_set_self _ _ _ _ hj]
    · simp only [updateNodeAabb]
      rw [List.getD_eq_getElem?_getD, List.getD_eq_getElem?_getD]
      rw [List.getElem?_eq_none, List.getElem?_eq_none] <;>
        simp [List.length_set, Nat.le_of_not_lt hj]
  · rw [updateNodeAabb_getD_ne _ _ _ _ hk]

lemma updateNodeAabb_payload (V : List V3Q) (s : BuildState) (j k : ℕ) :
    ((updateNodeAabb V s j).nodes.getD k default).payload =
      ((s.nodes.getD k default)).payload := by
  by_cases hk : k = j
  · subst hk
    by_cases hj : k < s.nodes.length
    · simp only [updateNodeAabb]
      rw [getD_set_self _ _ _ _ hj]
    · simp only [updateNodeAabb]
      rw [List.getD_eq_getElem?_getD, List.getD_eq_getElem?_getD]
      rw [List.getElem?_eq_none, List.getElem?_eq_none] <;>
        simp [List.length_set, Nat.le_of_not_lt hj]
  · rw [updateNodeAabb_getD_ne _ _ _ _ hk]

lemma splitState_nodeCount (V : List V3Q) (s : BuildState) (i : ℕ)
    (inds' : List UVec4N) (cents' : List V3Q) (a : ℕ) :
    (splitState V s i inds' cents' a).nodeCount = s.nodeCount + 2 := rfl

lemma splitState_length (V : List V3Q) (s : BuildState) (i : ℕ)
    (inds' : List UVec4N) (cents' : List V3Q) (a : ℕ) :
    (splitState V s i inds' cents' a).nodes.length = s.nodes.length := by
  simp only [splitState]
  rw [updateNodeAabb_length, updateNodeAabb_length]
  simp [List.length_set]

lemma splitState_parent (V : List V3Q) (s : BuildState) (i : ℕ)
    (inds' : List UVec4N) (cents' : List V3Q) (a : ℕ)
    (hi : i < s.nodeCount) (hlen : i < s.nodes.length) :
    (splitState V s i inds' cents' a).nodes.getD i default =
      { s.nodes.getD i default with payload := s.nodeCount, triCount := 0 } := by
  simp only [splitState]
  rw [updateNodeAabb_getD_ne _ _ _ _ (by omega), updateNodeAabb_getD_ne _ _ _ _ (by omega)]
  dsimp only
  rw [getD_set_ne _ _ _ _ _ (by omega), getD_set_ne _ _ _ _ _ (by omega),
    getD_set_self _ _ _ _ hlen]

lemma splitState_left (V : List V3Q) (s : BuildState) (i : ℕ)
    (inds' : List UVec4N) (cents' : List V3Q) (a : ℕ)
    (hi : i < s.nodeCount) (hlen : s.nodeCount < s.nodes.length) :
    ((splitState V s i inds' cents' a).nodes.getD s.nodeCount default).triCount =
        a - (s.nodes.getD i default).payload ∧
      ((splitState V s i inds' cents' a).nodes.getD s.nodeCount default).payload =
        (s.nodes.getD i default).payload := by
  simp only [splitState]
  rw [updateNodeAabb_triCount, updateNodeAabb_payload,
    updateNodeAabb_triCount, updateNodeAabb_payload]
  dsimp only
  rw [getD_set_ne _ _ _ _ _ (by omega),
    getD_set_self _ _ _ _ (by rw [List.length_set]; omega)]
  exact ⟨rfl, rfl⟩

lemma splitState_right (V : List V3Q) (s : BuildState) (i : ℕ)
    (inds' : List UVec4N) (cents' : List V3Q) (a : ℕ)
    (hlen : s.nodeCount + 1 < s.nodes.length) :
    ((splitState V s i inds' cents' a).nodes.getD (s.nodeCount + 1) default).triCount =
        (s.nodes.getD i default).triCount - (a - (s.nodes.getD i default).payload) ∧
      ((splitState V s i inds' cents' a).nodes.getD (s.nodeCount + 1) default).payload =
        a := by
  simp only [splitState]
  rw [updateNodeAabb_triCount, updateNodeAabb_payload,
    updateNodeAabb_triCount, updateNodeAabb_payload]
  dsimp only
  rw [getD_set_self _ _ _ _ (by rw [List.length_set, List.length_set]; omega)]
  exact ⟨rfl, rfl⟩

lemma splitState_other (V : List V3Q) (s : BuildState) (i : ℕ)
    (inds' : List UVec4N) (cents' : List V3Q) (a : ℕ) (k : ℕ)
    (hki : k ≠ i) (hkl : k ≠ s.nodeCount) (hkr : k ≠ s.nodeCount + 1) :
    (splitState V s i inds' cents' a).nodes.getD k default =
      s.nodes.getD k default := by
  simp only [splitState]
  rw [updateNodeAabb_getD_ne _ _ _ _ hkr, updateNodeAabb_getD_ne _ _ _ _ hkl]
  dsimp only
  rw [getD_set_ne _ _ _ _ _ (Ne.symm hkr), getD_set_ne _ _ _ _ _ (Ne.symm hkl),
    getD_set_ne _ _ _ _ _ (Ne.symm hki)]



lemma spansIn_mono {nodes : List BVHNode} {S T : ℕ → Prop} {i lo hi : ℕ}
    (h : SpansIn nodes S i lo hi) (hST : ∀ k, S k → T k) : SpansIn nodes T i lo hi := by
  induction h with
  | leaf i lo tri hS htri hc hp => exact SpansIn.leaf i lo tri (hST i hS) htri hc hp
  | node i lo m hi l hS hc hp hlm hmh _ _ ihl ihr =>
      exact SpansIn.node i lo m hi l (hST i hS) hc hp hlm hmh ihl ihr

lemma spansIn_congr {nodes nodes' : List BVHNode} {S : ℕ → Prop} {i lo hi : ℕ}
    (h : SpansIn nodes S i lo hi)
    (hag : ∀ k, S k → nodes'.getD k default = nodes.getD k default) :
    SpansIn nodes' S i lo hi := by
  induction h with
  | leaf i lo tri hS htri hc hp =>
      exact SpansIn.leaf i lo tri hS htri (by rw [hag i hS]; exact hc)
        (by rw [hag i hS]; exact hp)
  | node i lo m hi l hS hc hp hlm hmh _ _ ihl ihr =>
      exact SpansIn.node i lo m hi l hS (by rw [hag i hS]; exact hc)
        (by rw [hag i hS]; exact hp) hlm hmh ihl ihr

lemma partitionGo_bounds :
    ∀ (fuel axis : ℕ) (split : F) (inds : List UVec4N) (cents : List V3Q)
      (a b : ℕ) (inds' : List UVec4N) (cents' : List V3Q) (a' : ℕ),
      partitionGo axis split fuel inds cents a b = some (inds', cents', a') →
      a ≤ a' ∧ a' ≤ max a (b + 1) := by
  intro fuel
  induction fuel with
  | zero => intro axis split inds cents a b i' c' a' h; simp [partitionGo] at h
  | succ fuel ih =>
    intro axis split inds cents a b i' c' a' h
    rw [partitionGo] at h
    by_cases hab : a ≤ b
    · simp only [hab, if_true] at h
      match hca : cents[a]? with
      | none => rw [hca] at h; simp at h
      | some ca =>
        rw [hca] at h
        simp only at h
        by_cases hlt : (F.fin (ca.axis axis)).lt split = true
        · rw [if_pos hlt] at h
          have := ih axis split inds cents (a + 1) b i' c' a' h
          omega
        · rw [if_neg hlt] at h
          match hcb : cents[b]? with
          | none => rw [hcb] at h; simp at h
          | some cb =>
            rw [hcb] at h
            simp only at h
            match b, hab with
            | 0, hab => simp at h
            | b' + 1, hab =>
              have := ih axis split _ _ a b' i' c' a' h
              omega
    · simp only [hab, if_false] at h
      injection h with h
      injection h with h1 h2
      injection h2 with h2 h3
      subst h3
      omega

lemma axisBounds_single (s : BuildState) (first ax : ℕ) :
    axisBounds s first 1 ax =
      (F.fin ((s.centroids.getD first default).axis ax),
       F.fin ((s.centroids.getD first default).axis ax)) := by
  have hr : List.range 1 = [0] := rfl
  simp [axisBounds, hr, F.rmin, F.rmax, F.lt]

lemma findBest_single (V : List V3Q) (s : BuildState) (first : ℕ) :
    findBestSplitSegmented V s first 1 = (0, F.fin 0, F.inf) := by
  simp [findBestSplitSegmented, bestForAxis, axisBounds_single, F.feq]

lemma parentCost_le_inf {x : F} (h : x ≠ F.nan) :
    (x.mul (F.fin ((1 : ℕ) : ℚ))).le F.inf = true := by
  match x, h with
  | F.fin q, _ => simp [F.mul, F.le]
  | F.inf, _ =>
      simp only [F.mul]
      norm_num [F.le, qlt]
  | F.ninf, _ =>
      simp only [F.mul]
      norm_num [F.le, qlt]

lemma buildGo_single_leaf (V : List V3Q) (fuel : ℕ) (s : BuildState) (i : ℕ)
    (h1 : (s.nodes.getD i default).triCount = 1)
    (hA : nodeArea (s.nodes.getD i default) ≠ F.nan) :
    buildGo V (fuel + 1) s i = some s := by
  rw [buildGo]
  simp only [h1, findBest_single]
  rw [if_pos (parentCost_le_inf hA)]



set_option maxHeartbeats 2000000 in
lemma buildGo_ok (V : List V3Q) :
    ∀ (fuel : ℕ) (s : BuildState) (i : ℕ) (s' : BuildState),
      buildGo V fuel s i = some s' →
      1 ≤ (s.nodes.getD i default).triCount →
      i < s.nodeCount →
      s.nodeCount + 2 * (s.nodes.getD i default).triCount ≤ s.nodes.length + 2 →
      s'.nodes.length = s.nodes.length ∧
      s.nodeCount ≤ s'.nodeCount ∧
      s'.nodeCount + 2 ≤ s.nodeCount + 2 * (s.nodes.getD i default).triCount ∧
      (∀ k, k ≠ i → k < s.nodeCount → s'.nodes.getD k default = s.nodes.getD k default) ∧
      SpansIn s'.nodes (fun k => k = i ∨ (s.nodeCount ≤ k ∧ k < s'.nodeCount)) i
        (s.nodes.getD i default).payload
        ((s.nodes.getD i default).payload + (s.nodes.getD i default).triCount) := by
  intro fuel
  induction fuel with
  | zero =>
      intro s i s' h
      rw [buildGo] at h
      exact absurd h (by simp)
  | succ fuel ih =>
      intro s i s' h hcount hi hroom
      rw [buildGo] at h
      dsimp only at h
      split at h
      · injection h with h
        subst h
        refine ⟨rfl, le_refl _, by omega, fun k _ _ => rfl, ?_⟩
        exact SpansIn.leaf i _ _ (Or.inl rfl) hcount rfl rfl
      · split at h
        · exact absurd h (by simp)
        · rename_i inds' cents' a hpart
          obtain ⟨ha1, ha2⟩ := partitionGo_bounds _ _ _ _ _ _ _ _ _ _ hpart
          split at h
          · injection h with h
            subst h
            refine ⟨rfl, le_refl _, by dsimp only; omega, fun k _ _ => rfl, ?_⟩
            exact SpansIn.leaf i _ _ (Or.inl rfl) hcount rfl rfl
          · rename_i hnz
            split at h
            · exact absurd h (by simp)
            · rename_i s₅ heq5
              push_neg at hnz
              obtain ⟨hnz0, hnzc⟩ := hnz
              have hamax : a ≤ (s.nodes.getD i default).payload +
                  (s.nodes.getD i default).triCount := by omega
              have hlc1 : 1 ≤ a - (s.nodes.getD i default).payload := by omega
              have hlcc : a - (s.nodes.getD i default).payload <
                  (s.nodes.getD i default).triCount := by omega
              have hs4len : (splitState V s i inds' cents' a).nodes.length = s.nodes.length :=
                splitState_length V s i inds' cents' a
              have hs4nc : (splitState V s i inds' cents' a).nodeCount = s.nodeCount + 2 := rfl
              obtain ⟨hLt, hLp⟩ := splitState_left V s i inds' cents' a hi (by omega)
              obtain ⟨hRt, hRp⟩ := splitState_right V s i inds' cents' a (by omega)
              have hPar := splitState_parent V s i inds' cents' a hi (by omega)
              have ihL := ih (splitState V s i inds' cents' a) s.nodeCount s₅ heq5
                (by rw [hLt]; omega)
                (by rw [hs4nc]; omega)
                (by rw [hs4nc, hLt, hs4len]; omega)
              simp only [hs4nc, hs4len, hLt, hLp] at ihL
              obtain ⟨hL_len, hL_mono, hL_bound, hL_frame, hL_span⟩ := ihL
              have hs5r : s₅.nodes.getD (s.nodeCount + 1) default =
                  (splitState V s i inds' cents' a).nodes.getD (s.nodeCount + 1) default :=
                hL_frame (s.nodeCount + 1) (by omega) (by omega)
              have ihR := ih s₅ (s.nodeCount + 1) s' h
                (by rw [hs5r, hRt]; omega)
                (by omega)
                (by rw [hs5r, hRt, hL_len]; omega)
              simp only [hs5r, hRt, hRp] at ihR
              obtain ⟨hR_len, hR_mono, hR_bound, hR_frame, hR_span⟩ := ihR
              refine ⟨by rw [hR_len, hL_len], by omega, by omega, ?_, ?_⟩
              · intro k hki hkn
                rw [hR_frame k (by omega) (by omega), hL_frame k (by omega) (by omega),
                  splitState_other V s i inds' cents' a k hki (by omega) (by omega)]
              · have hparent' : s'.nodes.getD i default =
                    { s.nodes.getD i default with payload := s.nodeCount, triCount := 0 } := by
                  rw [hR_frame i (by omega) (by omega), hL_frame i (by omega) (by omega), hPar]
                have hSL : SpansIn s'.nodes
                    (fun k => k = s.nodeCount ∨ (s.nodeCount + 2 ≤ k ∧ k < s₅.nodeCount))
                    s.nodeCount (s.nodes.getD i default).payload
                    ((s.nodes.getD i default).payload +
                      (a - (s.nodes.getD i default).payload)) := by
                  refine spansIn_congr hL_span ?_
                  intro k hk
                  rcases hk with hk | hk
                  · exact hR_frame k (by omega) (by omega)
                  · exact hR_frame k (by omega) (by omega)
                have hfa : (s.nodes.getD i default).payload +
                    (a - (s.nodes.getD i default).payload) = a := by omega
                rw [hfa] at hSL
                have hra : a + ((s.nodes.getD i default).triCount -
                    (a - (s.nodes.getD i default).payload)) =
                    (s.nodes.getD i default).payload + (s.nodes.getD i default).triCount := by
                  omega
                rw [hra] at hR_span
                have hSL' : SpansIn s'.nodes
                    (fun k => k = i ∨ (s.nodeCount ≤ k ∧ k < s'.nodeCount))
                    s.nodeCount (s.nodes.getD i default).payload a :=
                  spansIn_mono hSL (fun k hk => by
                    rcases hk with hk | hk
                    · exact Or.inr ⟨by omega, by omega⟩
                    · exact Or.inr ⟨by omega, by omega⟩)
                have hSR' : SpansIn s'.nodes
                    (fun k => k = i ∨ (s.nodeCount ≤ k ∧ k < s'.nodeCount))
                    (s.nodeCount + 1) a
                    ((s.nodes.getD i default).payload + (s.nodes.getD i default).triCount) :=
                  spansIn_mono hR_span (fun k hk => by
                    rcases hk with hk | hk
                    · exact Or.inr ⟨by omega, by omega⟩
                    · exact Or.inr ⟨by omega, by omega⟩)
                exact SpansIn.node i (s.nodes.getD i default).payload a
                  ((s.nodes.getD i default).payload + (s.nodes.getD i default).triCount)
                  s.nodeCount (Or.inl rfl)
                  (by rw [hparent']) (by rw [hparent'])
                  (by omega) (by omega) hSL' hSR'



lemma initState_nodeCount (V : List V3Q) (inds : List UVec4N) :
    (initState V inds).nodeCount = 1 := rfl

lemma initState_length (V : List V3Q) (inds : List UVec4N) :
    (initState V inds).nodes.length = inds.length * 2 - 1 := by
  simp [initState, updateNodeAabb_length, List.length_set]

lemma initState_root (V : List V3Q) (inds : List UVec4N) (hN : 1 ≤ inds.length) :
    ((initState V inds).nodes.getD 0 default).triCount = inds.length ∧
    ((initState V inds).nodes.getD 0 default).payload = 0 := by
  simp only [initState]
  rw [updateNodeAabb_triCount, updateNodeAabb_payload]
  rw [getD_set_self _ _ _ _ (by simp [List.length_replicate]; omega)]
  exact ⟨rfl, rfl⟩

lemma bvhBuild_ok (V : List V3Q) (inds : List UVec4N) (nodes : List BVHNode)
    (inds2 : List UVec4N) (h : bvhBuild V inds = some (nodes, inds2)) :
    nodes.length ≤ 2 * inds.length - 1 ∧
    SpansIn nodes (fun k => k < nodes.length) 0 0 inds.length := by
  rw [bvhBuild] at h
  by_cases hN : inds.length = 0
  · rw [if_pos hN] at h
    exact absurd h (by simp)
  · rw [if_neg hN] at h
    have hN1 : 1 ≤ inds.length := by omega
    split at h
    · exact absurd h (by simp)
    · rename_i s₂ heq2
      injection h with h
      injection h with h1 h2
      obtain ⟨hrt, hrp⟩ := initState_root V inds hN1
      have := buildGo_ok V (inds.length + 1) (initState V inds) 0 s₂ heq2
        (by rw [hrt]; omega)
        (by rw [initState_nodeCount]; omega)
        (by rw [initState_nodeCount, initState_length, hrt]; omega)
      simp only [initState_nodeCount, initState_length, hrt, hrp] at this
      obtain ⟨hlen, hmono, hbound, hframe, hspan⟩ := this
      subst h1
      constructor
      · simp only [List.length_take]
        omega
      · have hspan' : SpansIn (s₂.nodes.take s₂.nodeCount)
            (fun k => k = 0 ∨ (1 ≤ k ∧ k < s₂.nodeCount)) 0 0 (0 + inds.length) := by
          refine spansIn_congr hspan ?_
          intro k hk
          rcases hk with hk | hk
          · exact getD_take _ _ _ _ (by omega)
          · exact getD_take _ _ _ _ (by omega)
        rw [Nat.zero_add] at hspan'
        refine spansIn_mono hspan' ?_
        intro k hk
        simp only [List.length_take]
        rcases hk with hk | hk
        · omega
        · omega



/-- C5: for every vertex/index buffer, the BVH the builder returns
satisfies the claimed invariants.  First conjunct: whenever `bvhBuild`
succeeds (it succeeds exactly when `N ≥ 1` and no panic occurs), the
node array has at most `2N - 1` nodes and the tree rooted at node 0
spans the whole triangle range `[0, N)` with every tree node inside the
array, every leaf holding at least one triangle, and every interior
node's children stored at the contiguous pair `payload`, `payload + 1`
(the layout behind `right_node_index() = left_node_index() + 1`).
Second conjunct: a node holding exactly one triangle is always kept as a
leaf — the splitting step returns the state unchanged (its SAH search
finds no candidate, so `parent_cost <= best_cost`), for any state whose
node has a well-defined (non-NaN) area. -/
theorem bvh_builder_invariants :
    (∀ (vertices : List V3Q) (indices : List UVec4N) (nodes : List BVHNode)
        (indices2 : List UVec4N),
        bvhBuild vertices indices = some (nodes, indices2) →
        nodes.length ≤ 2 * indices.length - 1 ∧
        SpansIn nodes (fun k => k < nodes.length) 0 0 indices.length) ∧
    (∀ (vertices : List V3Q) (fuel : ℕ) (s : BuildState) (i : ℕ),
        (s.nodes.getD i default).triCount = 1 →
        nodeArea (s.nodes.getD i default) ≠ F.nan →
        buildGo vertices (fuel + 1) s i = some s) :=
  ⟨bvhBuild_ok, buildGo_single_leaf⟩

set_option maxRecDepth 10000 in
/-- C5 witness: the two-triangle scene instantiates both parts — the
build succeeds with 3 = 2*2 - 1 nodes spanning `[0, 2)`, and the
one-triangle leaf at slot 1 of `sC5w` is left unchanged by the splitter. -/
theorem bvh_builder_invariants_witness :
    bvhBuild vertsC1 trisC1 = some (nodesC1, trisC1) ∧
    (nodesC1.length ≤ 2 * trisC1.length - 1 ∧
      SpansIn nodesC1 (fun k => k < nodesC1.length) 0 0 trisC1.length) ∧
    (sC5w.nodes.getD 1 default).triCount = 1 ∧
    nodeArea (sC5w.nodes.getD 1 default) ≠ F.nan ∧
    buildGo vertsC1 (3 + 1) sC5w 1 = some sC5w :=
  ⟨by decide,
   bvh_builder_invariants.1 vertsC1 trisC1 nodesC1 trisC1 (by decide),
   by decide, by decide,
   bvh_builder_invariants.2 vertsC1 3 sC5w 1 (by decide) (by decide)⟩

end RPT
